import Mathlib

/-!
Verification of the discovery-and-deduplication core of the
agentic-job-search-orchestrator repository.

The Python sources are shallowly embedded: pure helpers become Lean
functions on `String`/`List Char`, the SQLite-backed `JobDatabase` becomes
explicit state passing over a list of rows, and the browser-driven
scraper becomes a function over an explicit page model.  Machine-level
details (md5 words) are `Nat` with explicit reduction modulo 2 ^ 32.
-/

set_option autoImplicit false
set_option maxRecDepth 20000

namespace JobSearch

instance {ε α : Type} [DecidableEq ε] [DecidableEq α] :
    DecidableEq (Except ε α) := fun a b =>
  match a, b with
  | .error e1, .error e2 =>
    if h : e1 = e2 then .isTrue (by rw [h]) else .isFalse (by simp [h])
  | .error _, .ok _ => .isFalse (by simp)
  | .ok _, .error _ => .isFalse (by simp)
  | .ok v1, .ok v2 =>
    if h : v1 = v2 then .isTrue (by rw [h]) else .isFalse (by simp [h])

/-! ## Python string primitives used by the sources -/

/-- Code points that Python `str.strip()` removes for ASCII text
(`Py_UNICODE_ISSPACE`: HT LF VT FF CR, FS GS RS US, SP). -/
def pyWs (c : Char) : Bool :=
  c.toNat = 32 || c.toNat = 9 || c.toNat = 10 || c.toNat = 11 ||
  c.toNat = 12 || c.toNat = 13 || c.toNat = 28 || c.toNat = 29 ||
  c.toNat = 30 || c.toNat = 31

/-- Left-and-right whitespace trimming on character lists. -/
def stripWsL (l : List Char) : List Char :=
  ((l.dropWhile pyWs).reverse.dropWhile pyWs).reverse

/-- Python `str.strip()` on ASCII text: drop surrounding whitespace. -/
def pyStrip (s : String) : String :=
  String.mk (stripWsL s.data)

/-- Python `str.lower()` on ASCII text: lowercase every basic latin letter. -/
def pyLower (s : String) : String :=
  String.mk (s.data.map Char.toLower)

/-! ## Filter normalization and vocabularies (src/tools/linkedin_scraper.py) -/

/-- Embedding of `_normalize` (linkedin_scraper.py lines 39 to 42):
`None` or an empty list yield `[]`; otherwise keep the truthy entries with
truthy strip and map each through `strip().lower()`. -/
def pynormalize (values : Option (List String)) : List String :=
  match values with
  | none => []
  | some vs =>
    if vs.isEmpty then []
    else ((vs.filter (fun v => v ≠ ("") && pyStrip v ≠ (""))).map
      (fun v => pyLower (pyStrip v)))

/-- Embedding of `JOB_TYPE_MAP`. -/
def JOB_TYPE_MAP : List (String × String) :=
  [("full-time", ("F")), ("part-time", ("P")), ("contract", ("C")),
   ("temporary", ("T")), ("volunteer", ("V"))]

/-- Embedding of `EXPERIENCE_LEVEL_MAP`. -/
def EXPERIENCE_LEVEL_MAP : List (String × String) :=
  [("internship", ("1")), ("entry level", ("2")), ("associate", ("3")),
   ("mid-senior level", ("4")), ("director", ("5"))]

/-- Embedding of `REMOTE_MAP`. -/
def REMOTE_MAP : List (String × String) :=
  [("on-site", ("1")), ("hybrid", ("3")), ("remote", ("2"))]

/-- Embedding of the comprehension
`[MAP[v] for v in _normalize(values) if v in MAP]`
used at linkedin_scraper.py lines 67 to 77 for each of the three maps. -/
def mapCodes (m : List (String × String)) (values : Option (List String)) :
    List String :=
  (pynormalize values).filterMap (fun v => m.lookup v)

/-! ## URL canonicalization (urllib.parse.urlsplit and
`_canonicalize_job_url`, linkedin_scraper.py lines 45 to 50) -/

/-- Result record of `urllib.parse.urlsplit`. -/
structure SplitResult where
  scheme : String
  netloc : String
  path : String
  query : String
  fragment : String
deriving Repr, DecidableEq

/-- Python exceptions that the embedded fragments can raise. -/
inductive PyExn where
  | valueError
  | attributeError
deriving Repr, DecidableEq

/-- Characters legal in a URL scheme position, mirroring
`urllib.parse.scheme_chars`. -/
def schemeChar (c : Char) : Bool :=
  c.isAlpha || c.isDigit || c = '+' || c = '-' || c = '.'

/-- WHATWG pre-cleaning performed by `urlsplit` (CPython 3.10 line of
code): left-strip C0 controls and space, then remove every tab, carriage
return and line feed. -/
def preclean (l : List Char) : List Char :=
  (l.dropWhile (fun c => c.toNat ≤ 32)).filter
    (fun c => ¬(c = '\t' ∨ c = '\r' ∨ c = '\n'))

/-- Scheme splitting step of `urlsplit`: a scheme is recognized when the
first colon has a positive index, the first character is a letter and all
characters before the colon are scheme characters; the scheme is
lowercased. -/
def splitScheme (l : List Char) : List Char × List Char :=
  match l.findIdx? (fun c => c = ':') with
  | none => ([], l)
  | some i =>
    if i = 0 then ([], l)
    else
      match l with
      | [] => ([], l)
      | c :: _ =>
        if c.isAlpha && (l.take i).all schemeChar then
          ((l.take i).map Char.toLower, l.drop (i + 1))
        else ([], l)

/-- Netloc delimiters recognized by `_splitnetloc`. -/
def netlocDelim (c : Char) : Bool := c = '/' || c = '?' || c = '#'

/-- Netloc splitting step of `urlsplit`: after a literal `//`, the netloc
runs until the first slash, question mark or hash. -/
def splitNetloc (l : List Char) : List Char × List Char :=
  match l with
  | '/' :: '/' :: rest =>
    (rest.takeWhile (fun c => ¬netlocDelim c),
     rest.dropWhile (fun c => ¬netlocDelim c))
  | _ => ([], l)

/-- Split the remaining characters at the first occurrence of `c`,
dropping that occurrence: models Python `url.split(c, 1)` guarded by a
containment test. -/
def splitAtFirst (c : Char) (l : List Char) : List Char × List Char :=
  (l.takeWhile (fun x => x ≠ c), (l.dropWhile (fun x => x ≠ c)).drop 1)

/-- Embedding of `urllib.parse.urlsplit` (CPython 3.10, default `scheme`
and `allow_fragments` arguments, ASCII input): pre-clean, split the
scheme, split the netloc, reject mismatched IPv6 brackets with
`ValueError`, then split off fragment and query. -/
def urlsplit (url : String) : Except PyExn SplitResult :=
  let l := preclean url.data
  let p1 := splitScheme l
  let p2 := splitNetloc p1.2
  if (p2.1.contains '[' && !p2.1.contains ']') ||
     (p2.1.contains ']' && !p2.1.contains '[') then
    .error .valueError
  else
    let pf := splitAtFirst '#' p2.2
    let pq := splitAtFirst '?' pf.1
    .ok { scheme := String.mk p1.1, netloc := String.mk p2.1,
          path := String.mk pq.1, query := String.mk pq.2,
          fragment := String.mk pf.2 }

/-- Embedding of `_canonicalize_job_url` (linkedin_scraper.py lines 45 to
50): keep the input when scheme or netloc is missing, otherwise rebuild
`scheme://netloc path`.  A `ValueError` escaping from `urlsplit`
propagates. -/
def canonicalizeJobUrl (url : String) : Except PyExn String :=
  match urlsplit url with
  | .error e => .error e
  | .ok parts =>
    if parts.scheme = ("") || parts.netloc = ("") then .ok url
    else .ok (parts.scheme ++ ("://") ++ parts.netloc ++ parts.path)

/-! ## MD5 (hashlib.md5 used at linkedin_scraper.py line 177)

Reference implementation of the MD5 digest over byte lists, with 32-bit
words represented as `Nat` reduced modulo `2 ^ 32`. -/

/-- Reduce to a 32-bit word. -/
def w32 (n : Nat) : Nat := n % 4294967296

/-- 32-bit addition. -/
def wadd (a b : Nat) : Nat := (a + b) % 4294967296

/-- 32-bit complement (argument assumed reduced). -/
def wnot (a : Nat) : Nat := 4294967295 - a

/-- 32-bit left rotation. -/
def rotl (x n : Nat) : Nat :=
  ((x <<< n) ||| (x >>> (32 - n))) % 4294967296

/-- The 64 sine-derived round constants of MD5. -/
def md5K : List Nat :=
  [0xd76aa478, 0xe8c7b756, 0x242070db, 0xc1bdceee,
   0xf57c0faf, 0x4787c62a, 0xa8304613, 0xfd469501,
   0x698098d8, 0x8b44f7af, 0xffff5bb1, 0x895cd7be,
   0x6b901122, 0xfd987193, 0xa679438e, 0x49b40821,
   0xf61e2562, 0xc040b340, 0x265e5a51, 0xe9b6c7aa,
   0xd62f105d, 0x02441453, 0xd8a1e681, 0xe7d3fbc8,
   0x21e1cde6, 0xc33707d6, 0xf4d50d87, 0x455a14ed,
   0xa9e3e905, 0xfcefa3f8, 0x676f02d9, 0x8d2a4c8a,
   0xfffa3942, 0x8771f681, 0x6d9d6122, 0xfde5380c,
   0xa4beea44, 0x4bdecfa9, 0xf6bb4b60, 0xbebfbc70,
   0x289b7ec6, 0xeaa127fa, 0xd4ef3085, 0x04881d05,
   0xd9d4d039, 0xe6db99e5, 0x1fa27cf8, 0xc4ac5665,
   0xf4292244, 0x432aff97, 0xab9423a7, 0xfc93a039,
   0x655b59c3, 0x8f0ccc92, 0xffeff47d, 0x85845dd1,
   0x6fa87e4f, 0xfe2ce6e0, 0xa3014314, 0x4e0811a1,
   0xf7537e82, 0xbd3af235, 0x2ad7d2bb, 0xeb86d391]

/-- The per-round left-rotation amounts of MD5. -/
def md5S : List Nat :=
  [7, 12, 17, 22, 7, 12, 17, 22, 7, 12, 17, 22, 7, 12, 17, 22,
   5, 9, 14, 20, 5, 9, 14, 20, 5, 9, 14, 20, 5, 9, 14, 20,
   4, 11, 16, 23, 4, 11, 16, 23, 4, 11, 16, 23, 4, 11, 16, 23,
   6, 10, 15, 21, 6, 10, 15, 21, 6, 10, 15, 21, 6, 10, 15, 21]

/-- Little-endian 32-bit word from four bytes. -/
def leWord (b0 b1 b2 b3 : Nat) : Nat :=
  b0 + 256 * b1 + 65536 * b2 + 16777216 * b3

/-- Group a 64-byte block into sixteen little-endian words. -/
def toWords : List Nat → List Nat
  | b0 :: b1 :: b2 :: b3 :: rest => leWord b0 b1 b2 b3 :: toWords rest
  | _ => []

/-- One MD5 round: given the round index, the message words and the
running `(a, b, c, d)` state, produce the next state. -/
def md5Round (m : List Nat) (st : Nat × Nat × Nat × Nat) (i : Nat) :
    Nat × Nat × Nat × Nat :=
  let a := st.1
  let b := st.2.1
  let c := st.2.2.1
  let d := st.2.2.2
  let f :=
    if i < 16 then (b &&& c) ||| (wnot b &&& d)
    else if i < 32 then (d &&& b) ||| (wnot d &&& c)
    else if i < 48 then b ^^^ c ^^^ d
    else c ^^^ (b ||| wnot d)
  let g :=
    if i < 16 then i
    else if i < 32 then (5 * i + 1) % 16
    else if i < 48 then (3 * i + 5) % 16
    else (7 * i) % 16
  let sum := wadd (wadd (wadd a f) (md5K.getD i 0)) (m.getD g 0)
  (d, wadd b (rotl sum (md5S.getD i 0)), b, c)

/-- Process one 64-byte block, updating the four word accumulators. -/
def md5Block (acc : Nat × Nat × Nat × Nat) (block : List Nat) :
    Nat × Nat × Nat × Nat :=
  let m := toWords block
  let st := (List.range 64).foldl (md5Round m) acc
  (wadd acc.1 st.1, wadd acc.2.1 st.2.1,
   wadd acc.2.2.1 st.2.2.1, wadd acc.2.2.2 st.2.2.2)

/-- Split a byte list into successive 64-byte blocks. -/
def blocks64 (l : List Nat) : List (List Nat) :=
  (List.range ((l.length + 63) / 64)).map
    (fun i => (l.drop (64 * i)).take 64)

/-- MD5 padding: append `0x80`, zero bytes up to 56 modulo 64, then the
bit length as eight little-endian bytes. -/
def md5Pad (msg : List Nat) : List Nat :=
  let lenBits := (msg.length * 8) % 18446744073709551616
  let zeros := (119 - (msg.length % 64)) % 64
  msg ++ [128] ++ List.replicate zeros 0 ++
    (List.range 8).map (fun i => lenBits / (256 ^ i) % 256)

/-- Little-endian bytes of one 32-bit word. -/
def wordBytes (w : Nat) : List Nat :=
  [w % 256, w / 256 % 256, w / 65536 % 256, w / 16777216 % 256]

/-- Lowercase hexadecimal digit. -/
def hexDigit (n : Nat) : Char :=
  ("0123456789abcdef").data.getD n '0'

/-- Two lowercase hexadecimal digits of one byte. -/
def byteHex (n : Nat) : List Char :=
  [hexDigit (n / 16), hexDigit (n % 16)]

/-- Full MD5 digest of a byte list, hex encoded: the embedding of
`hashlib.md5(payload).hexdigest()`. -/
def md5Hex (msg : List Nat) : String :=
  let st := (blocks64 (md5Pad msg)).foldl md5Block
    (0x67452301, 0xefcdab89, 0x98badcfe, 0x10325476)
  String.mk (((wordBytes st.1 ++ wordBytes st.2.1 ++
    wordBytes st.2.2.1 ++ wordBytes st.2.2.2).map byteHex).flatten)

/-- UTF-8 encoding of one character, the embedding of `str.encode`. -/
def utf8Bytes (c : Char) : List Nat :=
  let n := c.toNat
  if n < 128 then [n]
  else if n < 2048 then
    [192 ||| (n >>> 6), 128 ||| (n &&& 63)]
  else if n < 65536 then
    [224 ||| (n >>> 12), 128 ||| ((n >>> 6) &&& 63), 128 ||| (n &&& 63)]
  else
    [240 ||| (n >>> 18), 128 ||| ((n >>> 12) &&& 63),
     128 ||| ((n >>> 6) &&& 63), 128 ||| (n &&& 63)]

/-- Embedding of the id derivation at linkedin_scraper.py line 177:
`hashlib.md5(canonical_url.encode("utf-8")).hexdigest()`. -/
def deriveId (s : String) : String :=
  md5Hex (s.data.flatMap utf8Bytes)

/-! ## Listing store (src/utils/storage.py)

The SQLite table `jobs` becomes a list of rows in rowid order; the
`JobDatabase` dataclass becomes a record holding the rows and the
constructor-supplied `remote` tag.  `date_posted` is carried as the ISO
string that `add_jobs` computes before insertion. -/

/-- Embedding of the pydantic `JobListing` model (src/schema/job.py),
with `date_posted` already in ISO form. -/
structure JobListing where
  id : String
  title : Option String
  company : Option String
  job_url : String
  location : Option String
  description : Option String
  date_posted : Option String
deriving Repr, DecidableEq

/-- One persisted row of the `jobs` table (storage.py lines 29 to 39). -/
structure JobRow where
  id : String
  url : String
  title : Option String
  company : Option String
  date_posted : Option String
  location : Option String
  remote : String
  status : String
  relevance_score : Option Int
deriving Repr, DecidableEq

/-- The `jobs` table in rowid order. -/
abbrev JobsTable := List JobRow

/-- Embedding of the `JobDatabase` dataclass: the backing table plus the
constructor-supplied `remote` tag. -/
structure JobDatabase where
  db : JobsTable
  remote : String
deriving Repr, DecidableEq

/-- Does some row carry this primary-key id? -/
def hasId (t : JobsTable) (i : String) : Bool :=
  t.any (fun r => r.id == i)

/-- Does some row carry this unique url? -/
def hasUrl (t : JobsTable) (u : String) : Bool :=
  t.any (fun r => r.url == u)

/-- Row built from a listing by `add_jobs` (storage.py lines 61 to 79):
descriptive fields are copied, `remote` is the store tag, `status`
defaults to `discovered` and the score to NULL. -/
def listingRow (remote : String) (j : JobListing) : JobRow :=
  { id := j.id, url := j.job_url, title := j.title, company := j.company,
    date_posted := j.date_posted, location := j.location, remote := remote,
    status := ("discovered"), relevance_score := none }

/-- One `INSERT OR IGNORE` against the `id` primary key and the unique
index on `url`: the row is dropped when either key is already present,
and `sqlite3.Connection.total_changes` grows by the second component. -/
def insertOrIgnore (t : JobsTable) (r : JobRow) : JobsTable × Nat :=
  if hasId t r.id || hasUrl t r.url then (t, 0) else (t ++ [r], 1)

/-- Embedding of `JobDatabase.add_jobs` (storage.py lines 56 to 91): map
the listings to rows, insert them in order with `INSERT OR IGNORE`, and
return the number of newly inserted rows.  The early return on an empty
batch coincides with the fold over the empty list. -/
def add_jobs (d : JobDatabase) (jobs : List JobListing) : JobDatabase × Nat :=
  let rows := jobs.map (listingRow d.remote)
  let res := rows.foldl
    (fun (acc : JobsTable × Nat) r =>
      let step := insertOrIgnore acc.1 r
      (step.1, acc.2 + step.2))
    (d.db, 0)
  ({ d with db := res.1 }, res.2)

/-- Embedding of `JobDatabase.get_new_jobs` (storage.py lines 93 to 101).
The second component counts SELECT round-trips: the empty input returns
before touching the connection.  `existing` models the url column of
`SELECT url FROM jobs WHERE url IN (...)`. -/
def get_new_jobs (d : JobDatabase) (urls : List String) :
    List String × Nat :=
  if urls.isEmpty then ([], 0)
  else
    let existing := (d.db.filter (fun r => urls.contains r.url)).map
      (fun r => r.url)
    (urls.filter (fun u => ¬existing.contains u), 1)

/-- One `UPDATE jobs SET relevance_score = ?, status = 'scored' WHERE
id = ?`: every row matching the id is rewritten, and the change counter
grows by the number of matching rows. -/
def applyScore (t : JobsTable) (jobId : String) (score : Int) :
    JobsTable × Nat :=
  (t.map (fun r =>
    if r.id == jobId then
      { r with relevance_score := some score, status := ("scored") }
    else r),
   (t.filter (fun r => r.id == jobId)).length)

/-- Embedding of `JobDatabase.update_scores` (storage.py lines 103 to
121): run the updates in order and return the total change count.  The
early return on an empty batch coincides with the fold. -/
def update_scores (d : JobDatabase) (scores : List (String × Int)) :
    JobDatabase × Nat :=
  let res := scores.foldl
    (fun (acc : JobsTable × Nat) p =>
      let step := applyScore acc.1 p.1 p.2
      (step.1, acc.2 + step.2))
    (d.db, 0)
  ({ d with db := res.1 }, res.2)

/-! ## Date parsing used per card (linkedin_scraper.py lines 179 to 189) -/

/-- Numeric value of a run of digit characters. -/
def digitsVal (l : List Char) : Nat :=
  l.foldl (fun n c => 10 * n + (c.toNat - 48)) 0

/-- Day count of a month in the proleptic Gregorian calendar. -/
def daysInMonth (y m : Nat) : Nat :=
  if m = 2 then
    if y % 4 = 0 && (y % 100 ≠ 0 || y % 400 = 0) then 29 else 28
  else if m = 4 || m = 6 || m = 9 || m = 11 then 30
  else 31

/-- Embedding of `datetime.date.fromisoformat` on the calendar form
`YYYY-MM-DD` (the form the job board emits); other inputs yield `none`,
standing for the `ValueError` branch. -/
def parseIsoDate (s : String) : Option String :=
  match s.data with
  | [y1, y2, y3, y4, '-', m1, m2, '-', d1, d2] =>
    if [y1, y2, y3, y4, m1, m2, d1, d2].all Char.isDigit then
      let y := digitsVal [y1, y2, y3, y4]
      let m := digitsVal [m1, m2]
      let d := digitsVal [d1, d2]
      if 1 ≤ m && m ≤ 12 && 1 ≤ d && d ≤ daysInMonth y m && 1 ≤ y then
        some s
      else none
    else none
  | _ => none

/-- Replace every `Z` by `+00:00`, the embedding of
`posted_raw.replace("Z", "+00:00")`. -/
def replaceZ (s : String) : String :=
  String.mk (s.data.flatMap
    (fun c => if c = 'Z' then ['+', '0', '0', ':', '0', '0'] else [c]))

/-- Embedding of the `datetime.fromisoformat(...).date()` fallback: a
valid calendar date may be followed by a `T` or space separated
time-of-day (whose internal validity the embedding abstracts over); the
result is the date part in ISO form. -/
def parseIsoDatetimeDate (s : String) : Option String :=
  let t := replaceZ s
  let dpart := String.mk (t.data.take 10)
  match parseIsoDate dpart with
  | none => none
  | some d =>
    match t.data.drop 10 with
    | [] => some d
    | c :: _ => if c = 'T' || c = ' ' then some d else none

/-- Per-card date normalization (linkedin_scraper.py lines 179 to 189):
an empty raw string yields NULL, otherwise the two parsers are tried in
order and failure of both yields NULL. -/
def datePosted (raw : String) : Option String :=
  if raw = ("") then none
  else
    match parseIsoDate raw with
    | some d => some d
    | none => parseIsoDatetimeDate raw

/-! ## Discovery scraper (LinkedInScraper.search_jobs, linkedin_scraper.py
lines 56 to 209)

The browser is abstracted into a page model: whether navigation and the
results-list wait succeed, and the parsed result cards.  Each field of a
card carries the outcome of the corresponding selector query; an
unmodelled interaction (the sign-in modal, the debug screenshot, the
selector fallback for `div.base-card`) does not influence the returned
listings. -/

/-- The matched `time` element of a card: its `datetime` attribute value
(if any) and its inner text. -/
structure DateEl where
  datetimeAttr : Option String
  text : String
deriving Repr, DecidableEq

/-- One result card: for each selector, the inner text or attribute of
the matched element, or `none` when the markup is absent.  For the link,
the outer `Option` is the element and the inner one the `href`
attribute. -/
structure Card where
  titleEl : Option String
  companyEl : Option String
  locationEl : Option String
  linkHref : Option (Option String)
  dateEl : Option DateEl
  descriptionEl : Option String
deriving Repr, DecidableEq

/-- Processing a card either reads its fields or raises a
`PlaywrightError` (a transport or protocol failure in the driver). -/
inductive CardEvent where
  | ok (c : Card)
  | raisesPw
deriving Repr, DecidableEq

/-- Python `or None` on a string: the empty string collapses to `None`. -/
def orNone (s : String) : Option String := if s = ("") then none else some s

/-- The extracted `job_url` of a card (linkedin_scraper.py line 166):
`None` when the link element or its `href` is missing or empty. -/
def cardJobUrl (c : Card) : Option String :=
  match c.linkHref with
  | none => none
  | some none => none
  | some (some s) => orNone s

/-- The raw posted-date string of a card (linkedin_scraper.py lines 170
to 172). -/
def cardPostedRaw (c : Card) : String :=
  match c.dateEl with
  | none => ("")
  | some de =>
    match de.datetimeAttr with
    | some a => if a = ("") then pyStrip de.text else a
    | none => pyStrip de.text

/-- The listing appended for a card whose canonical URL is `canonical`
(linkedin_scraper.py lines 160 to 201). -/
def cardListing (c : Card) (canonical : String) : JobListing :=
  { id := deriveId canonical,
    title := orNone ((c.titleEl.map pyStrip).getD ("")),
    company := orNone ((c.companyEl.map pyStrip).getD ("")),
    job_url := canonical,
    location := orNone ((c.locationEl.map pyStrip).getD ("")),
    description := c.descriptionEl.map pyStrip,
    date_posted := datePosted (cardPostedRaw c) }

/-- Outcome of a `search_jobs` call: a returned list, or an exception
propagating to the caller. -/
inductive ScrapeOutcome where
  | returned (listings : List JobListing)
  | raised (e : PyExn)
deriving Repr, DecidableEq

/-- The card loop of `search_jobs` (linkedin_scraper.py lines 141 to
205): stop at `limit`; a `PlaywrightError` while processing a card
returns the listings accumulated so far; a card without extractable URL
reaches `canonical_url.encode` on `None` at line 177, raising
`AttributeError`; a `ValueError` escaping `urlsplit` propagates. -/
def cardLoop (limit : Nat) : List CardEvent → List JobListing → ScrapeOutcome
  | [], acc => .returned acc
  | e :: rest, acc =>
    if limit ≤ acc.length then .returned acc
    else
      match e with
      | .raisesPw => .returned acc
      | .ok c =>
        match cardJobUrl c with
        | none => .raised .attributeError
        | some u =>
          match canonicalizeJobUrl u with
          | .error e2 => .raised e2
          | .ok canonical => cardLoop limit rest (acc ++ [cardListing c canonical])

/-- Abstract page state reached by one `search_jobs` call: whether
`page.goto` succeeds, whether waiting for the results list succeeds, and
the parsed cards. -/
structure PageModel where
  navOk : Bool
  waitOk : Bool
  cards : List CardEvent
deriving Repr, DecidableEq

/-- Embedding of `LinkedInScraper.search_jobs` after the request URL is
built: a navigation failure (lines 103 to 108) or a failure waiting for
cards (lines 119 to 130) returns the (empty) accumulated results,
otherwise the card loop runs. -/
def search_jobs (pm : PageModel) (limit : Nat) : ScrapeOutcome :=
  if !pm.navOk then .returned []
  else if !pm.waitOk then .returned []
  else cardLoop limit pm.cards []

/-! ## Discovery orchestrator (job_discovery_node, src/agents/nodes.py
lines 83 to 127) -/

/-- State threaded through the per-query loop of `job_discovery_node`:
the shared store, the in-run `seen_urls` set, the merged `found_jobs`
output, and the successive batches passed to `add_jobs`. -/
structure DiscoveryState where
  db : JobDatabase
  seen : List String
  found : List JobListing
  batches : List (List JobListing)
deriving Repr, DecidableEq

/-- The body of `for job in filtered_jobs` (nodes.py lines 121 to 125):
skip an already seen URL, otherwise record it and append the listing. -/
def dedupStep (p : List String × List JobListing) (j : JobListing) :
    List String × List JobListing :=
  if p.1.contains j.job_url then p else (p.1 ++ [j.job_url], p.2 ++ [j])

/-- One iteration of the query loop (nodes.py lines 104 to 125): skip an
empty scrape, collect the truthy URLs, ask the store which are new, keep
only listings with a new URL, persist a non-empty batch, then merge with
in-run deduplication. -/
def processQuery (st : DiscoveryState) (jobs : List JobListing) :
    DiscoveryState :=
  if jobs.isEmpty then st
  else
    let urls := (jobs.filter (fun j => j.job_url ≠ (""))).map
      (fun j => j.job_url)
    let newUrls := (get_new_jobs st.db urls).1
    let filtered := jobs.filter (fun j => newUrls.contains j.job_url)
    let dbAfter := if filtered.isEmpty then st.db else (add_jobs st.db filtered).1
    let batchesAfter :=
      if filtered.isEmpty then st.batches else st.batches ++ [filtered]
    let sf := filtered.foldl dedupStep (st.seen, st.found)
    { db := dbAfter, seen := sf.1, found := sf.2, batches := batchesAfter }

/-- The remote tag computed at nodes.py line 96:
`remote_filters[0] if len(remote_filters) == 1 else ""`. -/
def remoteValue (remoteFilters : List String) : String :=
  if remoteFilters.length = 1 then remoteFilters.headD ("") else ("")

/-- Embedding of `job_discovery_node`: `queryResults` abstracts, query by
query, the listing sequences the scraper returns; the store starts from
the persisted table `t0` and the constructor receives the remote tag.
The early return for an empty query list coincides with the empty fold. -/
def job_discovery_node (t0 : JobsTable) (remoteFilters : List String)
    (queryResults : List (List JobListing)) : DiscoveryState :=
  queryResults.foldl processQuery
    { db := { db := t0, remote := remoteValue remoteFilters },
      seen := [], found := [], batches := [] }

/-! ## Derived notions used by the statements -/

/-- The `(id, url)` key pairs of a table. -/
def rowKeys (t : JobsTable) : List (String × String) :=
  t.map (fun r => (r.id, r.url))

/-- The `(id, job_url)` key pairs of a listing batch. -/
def listingKeys (js : List JobListing) : List (String × String) :=
  js.map (fun j => (j.id, j.job_url))

/-- The url column of a table. -/
def tableUrls (t : JobsTable) : List String :=
  t.map (fun r => r.url)

/-- Key consistency: across the given key pairs, two entries share an id
exactly when they share a url.  This is the data-model invariant
`id = hash(job_url)` (spec section 3) in the absence of hash collisions;
without it the `id` primary key and the unique `url` index could disagree
about which rows conflict. -/
def KeysAgree (l : List (String × String)) : Prop :=
  ∀ p ∈ l, ∀ q ∈ l, p.1 = q.1 ↔ p.2 = q.2

instance (l : List (String × String)) : Decidable (KeysAgree l) := by
  unfold KeysAgree
  infer_instance

/-- The sublist of listings whose url is fresh relative to `seen` and to
every earlier kept listing: the batch that survives `INSERT OR IGNORE`
under key consistency. -/
def freshFirst (seen : List String) : List JobListing → List JobListing
  | [] => []
  | j :: rest =>
    if seen.contains j.job_url then freshFirst seen rest
    else j :: freshFirst (j.job_url :: seen) rest

/-- A card event that the loop body processes without raising: a card
whose URL extraction is truthy and whose canonicalization succeeds. -/
def cleanCard : CardEvent → Bool
  | .raisesPw => false
  | .ok c =>
    match cardJobUrl c with
    | none => false
    | some u =>
      match canonicalizeJobUrl u with
      | .error _ => false
      | .ok _ => true

/-- Invariant of the in-run deduplication: the merged output repeats no
URL and every output URL has been recorded in `seen_urls`. -/
def DiscoveryInv (st : DiscoveryState) : Prop :=
  (st.found.map (fun j => j.job_url)).Nodup ∧
  ∀ u ∈ st.found.map (fun j => j.job_url), st.seen.contains u = true

/-- Effect of one `UPDATE ... WHERE id = ?` statement on one row. -/
def scoreRow (p : String × Int) (r : JobRow) : JobRow :=
  if r.id == p.1 then
    { r with relevance_score := some p.2, status := ("scored") }
  else r

/-- The final value of a row after a batch of score updates with
pairwise-distinct ids: the matching update when the id occurs in the
batch, the unchanged row otherwise. -/
def scoredRow (scores : List (String × Int)) (r : JobRow) : JobRow :=
  match List.lookup r.id scores with
  | some sc => { r with relevance_score := some sc, status := ("scored") }
  | none => r

/-- Sample listing used to instantiate hypotheses concretely. -/
def jlA : JobListing :=
  { id := ("idA"), title := some ("ML Engineer"), company := some ("Acme"),
    job_url := ("https://jobs.example/a"), location := some ("Berlin"),
    description := none, date_posted := some ("2024-05-10") }

/-- Second sample listing with a distinct URL. -/
def jlB : JobListing :=
  { id := ("idB"), title := some ("Data Engineer"), company := none,
    job_url := ("https://jobs.example/b"), location := none,
    description := none, date_posted := none }

/-- A listing that shares the URL (hence the derived key) of `jlA` but
was scraped by a different query. -/
def jlA2 : JobListing :=
  { id := ("idA"), title := some ("ML Engineer (m/f/d)"), company := none,
    job_url := ("https://jobs.example/a"), location := none,
    description := none, date_posted := none }

/-! ## Basic character and trimming lemmas -/

theorem charOfNat_toNat {n : Nat} (h : n.isValidChar) :
    (Char.ofNat n).toNat = n := by
  unfold Char.ofNat
  rw [dif_pos h]
  rfl

theorem toNat_toLower (c : Char) :
    (Char.toLower c).toNat =
      if c.toNat ≥ 65 ∧ c.toNat ≤ 90 then c.toNat + 32 else c.toNat := by
  simp only [Char.toLower]
  split
  · exact charOfNat_toNat (Or.inl (by omega))
  · rfl

theorem toLower_eq_self {c : Char} (h : ¬(c.toNat ≥ 65 ∧ c.toNat ≤ 90)) :
    Char.toLower c = c := by
  simp only [Char.toLower]
  rw [if_neg h]

theorem pyWs_false_of_ge {c : Char} (h : 33 ≤ c.toNat) : pyWs c = false := by
  unfold pyWs
  simp only [Bool.or_eq_false_iff, decide_eq_false_iff_not]
  omega

theorem pyWs_toLower (c : Char) : pyWs (Char.toLower c) = pyWs c := by
  by_cases h : c.toNat ≥ 65 ∧ c.toNat ≤ 90
  · have h1 : 33 ≤ (Char.toLower c).toNat := by
      rw [toNat_toLower, if_pos h]; omega
    have h2 : 33 ≤ c.toNat := by omega
    rw [pyWs_false_of_ge h1, pyWs_false_of_ge h2]
  · rw [toLower_eq_self h]

theorem toLower_toLower (c : Char) :
    Char.toLower (Char.toLower c) = Char.toLower c := by
  by_cases h : c.toNat ≥ 65 ∧ c.toNat ≤ 90
  · apply toLower_eq_self
    rw [toNat_toLower, if_pos h]
    omega
  · simp only [toLower_eq_self h]

theorem dropWhile_sfx {α : Type} (p : α → Bool) (l : List α) :
    ∃ t, t ++ l.dropWhile p = l := by
  induction l with
  | nil => exact ⟨[], rfl⟩
  | cons c tl ih =>
    by_cases h : p c
    · obtain ⟨t, ht⟩ := ih
      exact ⟨c :: t, by simp [List.dropWhile_cons, h, ht]⟩
    · exact ⟨[], by simp [List.dropWhile_cons, h]⟩

theorem head?_dropWhile {α : Type} (p : α → Bool) (l : List α) {c : α}
    (h : (l.dropWhile p).head? = some c) : p c = false := by
  induction l with
  | nil => simp at h
  | cons a tl ih =>
    rw [List.dropWhile_cons] at h
    by_cases ha : p a
    · rw [if_pos ha] at h
      exact ih h
    · rw [if_neg ha] at h
      simp only [List.head?_cons, Option.some.injEq] at h
      rw [← h]
      exact Bool.of_not_eq_true ha

theorem dropWhile_eq_self_of_head {α : Type} (p : α → Bool) (l : List α)
    (h : ∀ c, l.head? = some c → p c = false) : l.dropWhile p = l := by
  cases l with
  | nil => rfl
  | cons a tl => simp [List.dropWhile_cons, h a rfl]

theorem dropWhile_idem {α : Type} (p : α → Bool) (l : List α) :
    (l.dropWhile p).dropWhile p = l.dropWhile p :=
  dropWhile_eq_self_of_head _ _ (fun _ h => head?_dropWhile p l h)

theorem stripWsL_idem (l : List Char) : stripWsL (stripWsL l) = stripWsL l := by
  unfold stripWsL
  have h1 : (((l.dropWhile pyWs).reverse.dropWhile pyWs).reverse).dropWhile pyWs
      = ((l.dropWhile pyWs).reverse.dropWhile pyWs).reverse := by
    apply dropWhile_eq_self_of_head
    intro c hc
    rw [List.head?_reverse] at hc
    obtain ⟨t, ht⟩ := dropWhile_sfx pyWs (l.dropWhile pyWs).reverse
    have hne : (l.dropWhile pyWs).reverse.dropWhile pyWs ≠ [] := by
      intro h0
      rw [h0] at hc
      simp at hc
    have : ((l.dropWhile pyWs).reverse).getLast? = some c := by
      rw [← ht, List.getLast?_append_of_ne_nil _ hne]
      exact hc
    rw [List.getLast?_reverse] at this
    exact head?_dropWhile pyWs l this
  rw [h1, List.reverse_reverse, dropWhile_idem]

theorem stripWsL_map_toLower (l : List Char) :
    stripWsL (l.map Char.toLower) = (stripWsL l).map Char.toLower := by
  have hp : (pyWs ∘ Char.toLower) = pyWs := funext pyWs_toLower
  unfold stripWsL
  rw [List.dropWhile_map, hp, ← List.map_reverse, List.dropWhile_map, hp,
    ← List.map_reverse]

theorem pyStrip_eq_empty_iff (v : String) :
    pyStrip v = ("") ↔ stripWsL v.data = [] := by
  unfold pyStrip
  constructor
  · intro h
    exact congrArg String.data h
  · intro h
    rw [h]

theorem pyStrip_pyLower_pyStrip (v : String) :
    pyStrip (pyLower (pyStrip v)) = pyLower (pyStrip v) := by
  show String.mk (stripWsL ((stripWsL v.data).map Char.toLower))
      = String.mk ((stripWsL v.data).map Char.toLower)
  rw [stripWsL_map_toLower, stripWsL_idem]

theorem pyLower_pyLower (s : String) : pyLower (pyLower s) = pyLower s := by
  show String.mk ((s.data.map Char.toLower).map Char.toLower)
      = String.mk (s.data.map Char.toLower)
  rw [List.map_map]
  have h : Char.toLower ∘ Char.toLower = Char.toLower := funext toLower_toLower
  rw [h]

theorem pynormalize_strip_lower (v : String) :
    pynormalize (some [v]) = pynormalize (some [pyLower (pyStrip v)]) := by
  by_cases hv : pyStrip v = ("")
  · have hw : pyLower (pyStrip v) = ("") := by
      rw [hv]
      rfl
    simp only [pynormalize, hw, List.isEmpty_cons]
    simp [hv]
  · have hv0 : v ≠ ("") := by
      intro h0
      apply hv
      rw [h0]
      rfl
    have hne : stripWsL v.data ≠ [] := fun h => hv ((pyStrip_eq_empty_iff v).mpr h)
    have hw : pyLower (pyStrip v) ≠ ("") := by
      intro h0
      have := congrArg String.data h0
      simp only [pyLower, pyStrip] at this
      exact hne (List.map_eq_nil_iff.mp this)
    have hsw : pyStrip (pyLower (pyStrip v)) = pyLower (pyStrip v) :=
      pyStrip_pyLower_pyStrip v
    simp only [pynormalize, List.isEmpty_cons]
    rw [if_neg (by simp), if_neg (by simp)]
    simp only [List.filter, hsw]
    rw [show (decide ¬v = ("") && decide ¬pyStrip v = ("")) = true by simp [hv0, hv]]
    rw [show (decide ¬pyLower (pyStrip v) = ("") &&
        decide ¬pyLower (pyStrip v) = ("")) = true by simp [hw]]
    simp only [List.filter_nil, List.map_cons, List.map_nil, hsw]
    rw [pyLower_pyLower]

theorem mapCodes_strip_lower (m : List (String × String)) (v : String) :
    mapCodes m (some [v]) = mapCodes m (some [pyLower (pyStrip v)]) := by
  unfold mapCodes
  rw [pynormalize_strip_lower]

/-- C9: filter tags are normalized by trimming and lowercasing before the
vocabulary lookup (first conjunct, for any vocabulary and tag); hence
`Remote` yields the same code as `remote`, namely `2`; an unrecognized
tag such as `anywhere` is silently dropped; and a batch may normalize to
an empty code list or to codes for its recognized tags only. -/
theorem c9_filter_tag_normalization :
    (∀ (m : List (String × String)) (v : String),
      mapCodes m (some [v]) = mapCodes m (some [pyLower (pyStrip v)])) ∧
    mapCodes REMOTE_MAP (some [("Remote")]) =
      mapCodes REMOTE_MAP (some [("remote")]) ∧
    mapCodes REMOTE_MAP (some [("remote")]) = [("2")] ∧
    mapCodes REMOTE_MAP (some [("anywhere")]) = [] ∧
    mapCodes REMOTE_MAP (some [("Remote"), ("anywhere")]) = [("2")] :=
  ⟨mapCodes_strip_lower, by decide, by decide, by decide, by decide⟩

/-! ## Canonicalizer lemmas (claim C1) -/

theorem toLower_eq_nonletter {c x : Char} (hx : x.toNat < 97)
    (h : Char.toLower c = x) : c = x := by
  by_cases hc : c.toNat ≥ 65 ∧ c.toNat ≤ 90
  · exfalso
    have hn := congrArg Char.toNat h
    rw [toNat_toLower, if_pos hc] at hn
    omega
  · rwa [toLower_eq_self hc] at h

theorem urlsplit_ok_elim {u : String} {p : SplitResult}
    (h : urlsplit u = .ok p) :
    p.scheme = String.mk (splitScheme (preclean u.data)).1 ∧
    p.netloc = String.mk (splitNetloc (splitScheme (preclean u.data)).2).1 ∧
    p.path = String.mk (splitAtFirst '?'
      (splitAtFirst '#'
        (splitNetloc (splitScheme (preclean u.data)).2).2).1).1 := by
  simp only [urlsplit] at h
  split at h
  · exact absurd h (by simp)
  · rw [Except.ok.injEq] at h
    rw [← h]
    exact ⟨rfl, rfl, rfl⟩

theorem splitScheme_fst_chars {l : List Char} {c : Char}
    (h : c ∈ (splitScheme l).1) :
    ∃ c0, schemeChar c0 = true ∧ c = Char.toLower c0 := by
  unfold splitScheme at h
  split at h
  · exact absurd h (by simp)
  · split at h
    · exact absurd h (by simp)
    · split at h
      · exact absurd h (by simp)
      · split at h
        · rename_i i hne c0 tl hcond
          rw [List.mem_map] at h
          obtain ⟨c1, hc1, hc1e⟩ := h
          refine ⟨c1, ?_, hc1e.symm⟩
          have hall := (Bool.and_eq_true _ _ |>.mp hcond).2
          rw [List.all_eq_true] at hall
          exact hall c1 hc1
        · exact absurd h (by simp)

theorem splitNetloc_fst_chars {l : List Char} {c : Char}
    (h : c ∈ (splitNetloc l).1) : netlocDelim c = false := by
  unfold splitNetloc at h
  split at h
  · have := List.mem_takeWhile_imp h
    simpa using this
  · exact absurd h (by simp)

theorem splitAtFirst_fst_chars {d : Char} {l : List Char} {c : Char}
    (h : c ∈ (splitAtFirst d l).1) : c ≠ d := by
  unfold splitAtFirst at h
  have := List.mem_takeWhile_imp h
  simpa using this

theorem splitAtFirst_fst_subset {d : Char} (l : List Char) {c : Char}
    (h : c ∈ (splitAtFirst d l).1) : c ∈ l := by
  unfold splitAtFirst at h
  exact (List.takeWhile_sublist _).subset h

theorem canonicalize_not_absolute {u : String} {p : SplitResult}
    (h : urlsplit u = .ok p) (habs : p.scheme = ("") ∨ p.netloc = ("")) :
    canonicalizeJobUrl u = .ok u := by
  unfold canonicalizeJobUrl
  rw [h]
  rcases habs with h1 | h1 <;> simp [h1]

theorem canonicalize_absolute {u : String} {p : SplitResult}
    (h : urlsplit u = .ok p) (h1 : p.scheme ≠ (""))
    (h2 : p.netloc ≠ ("")) :
    canonicalizeJobUrl u =
      .ok (p.scheme ++ ("://") ++ p.netloc ++ p.path) := by
  unfold canonicalizeJobUrl
  rw [h]
  simp [h1, h2]

theorem canonical_no_query_fragment {u : String} {p : SplitResult}
    (h : urlsplit u = .ok p) :
    ∀ c ∈ (p.scheme ++ ("://") ++ p.netloc ++ p.path).data,
      c ≠ '?' ∧ c ≠ '#' := by
  obtain ⟨hs, hn, hp⟩ := urlsplit_ok_elim h
  intro c hc
  simp only [String.data_append, List.mem_append] at hc
  rcases hc with ((hc | hc) | hc) | hc
  · rw [hs] at hc
    obtain ⟨c0, hc0, hce⟩ := splitScheme_fst_chars hc
    constructor
    · intro he
      rw [he] at hce
      have : c0 = '?' := toLower_eq_nonletter (by decide) hce.symm
      rw [this] at hc0
      exact absurd hc0 (by decide)
    · intro he
      rw [he] at hce
      have : c0 = '#' := toLower_eq_nonletter (by decide) hce.symm
      rw [this] at hc0
      exact absurd hc0 (by decide)
  · fin_cases hc <;> exact ⟨by decide, by decide⟩
  · rw [hn] at hc
    have hc2 : c ∈ (splitNetloc (splitScheme (preclean u.data)).2).1 := hc
    have hd := splitNetloc_fst_chars hc2
    constructor
    · intro he
      rw [he] at hd
      exact absurd hd (by decide)
    · intro he
      rw [he] at hd
      exact absurd hd (by decide)
  · rw [hp] at hc
    have hc2 : c ∈ (splitAtFirst '?'
        (splitAtFirst '#'
          (splitNetloc (splitScheme (preclean u.data)).2).2).1).1 := hc
    refine ⟨splitAtFirst_fst_chars hc2, ?_⟩
    exact splitAtFirst_fst_chars (splitAtFirst_fst_subset _ hc2)

/-- C1 (amended): when `urlsplit` accepts the input and scheme or host is
missing, the input is returned unchanged; when both are present the
result is `scheme://host/path`, which contains no question mark and no
hash; and two accepted absolute inputs agreeing on scheme, host and path
(that is, differing only in query string or fragment) canonicalize
equally and receive equal derived ids.  Inputs with unbalanced brackets
in the authority raise `ValueError` instead of being returned unchanged,
and for inputs without scheme or host the canonical forms keep their
query strings, so the unrestricted claim fails (see the
counterexample). -/
theorem c1_canonicalize_amended :
    (∀ (u : String) (p : SplitResult), urlsplit u = .ok p →
      (p.scheme = ("") ∨ p.netloc = ("")) →
      canonicalizeJobUrl u = .ok u) ∧
    (∀ (u : String) (p : SplitResult), urlsplit u = .ok p →
      p.scheme ≠ ("") → p.netloc ≠ ("") →
      canonicalizeJobUrl u = .ok (p.scheme ++ ("://") ++ p.netloc ++ p.path) ∧
      (∀ c ∈ (p.scheme ++ ("://") ++ p.netloc ++ p.path).data,
        c ≠ '?' ∧ c ≠ '#')) ∧
    (∀ (u1 u2 : String) (p1 p2 : SplitResult),
      urlsplit u1 = .ok p1 → urlsplit u2 = .ok p2 →
      p1.scheme ≠ ("") → p1.netloc ≠ ("") →
      p1.scheme = p2.scheme → p1.netloc = p2.netloc → p1.path = p2.path →
      canonicalizeJobUrl u1 = canonicalizeJobUrl u2 ∧
      ∀ c1 c2, canonicalizeJobUrl u1 = .ok c1 →
        canonicalizeJobUrl u2 = .ok c2 → deriveId c1 = deriveId c2) := by
  refine ⟨fun u p h habs => canonicalize_not_absolute h habs,
    fun u p h h1 h2 => ⟨canonicalize_absolute h h1 h2,
      canonical_no_query_fragment h⟩, ?_⟩
  intro u1 u2 p1 p2 hu1 hu2 h1 h2 hs hn hp
  have e1 := canonicalize_absolute hu1 h1 h2
  have e2 := canonicalize_absolute hu2 (hs ▸ h1) (hn ▸ h2)
  rw [hs, hn, hp] at e1
  refine ⟨e1.trans e2.symm, ?_⟩
  intro c1 c2 hc1 hc2
  rw [e1.trans e2.symm] at hc1
  rw [hc1] at hc2
  rw [Except.ok.injEq] at hc2
  rw [hc2]

/-- C1 counterexample: the two mailto URLs differ only in query string
(identical scheme, host and path under `urlsplit`), yet canonicalize to
distinct strings with distinct derived ids, because the host is absent
and the defensive identity branch applies; and a bracket-mismatched
input raises `ValueError` rather than being returned unchanged. -/
theorem c1_counterexample :
    urlsplit ("mailto:a@b?x") =
      .ok { scheme := ("mailto"), netloc := (""), path := ("a@b"),
            query := ("x"), fragment := ("") } ∧
    urlsplit ("mailto:a@b?y") =
      .ok { scheme := ("mailto"), netloc := (""), path := ("a@b"),
            query := ("y"), fragment := ("") } ∧
    canonicalizeJobUrl ("mailto:a@b?x") = .ok ("mailto:a@b?x") ∧
    canonicalizeJobUrl ("mailto:a@b?y") = .ok ("mailto:a@b?y") ∧
    canonicalizeJobUrl ("mailto:a@b?x") ≠ canonicalizeJobUrl ("mailto:a@b?y") ∧
    deriveId ("mailto:a@b?x") ≠ deriveId ("mailto:a@b?y") ∧
    canonicalizeJobUrl ("http://[a") = .error .valueError :=
  ⟨by decide, by decide, by decide, by decide, by decide, by decide, by decide⟩

/-- C1 witness: the amended theorem applied to two concrete job URLs that
differ only in query string and fragment. -/
theorem c1_canonicalize_witness :
    canonicalizeJobUrl ("https://ex.com/jobs/1?ref=a#top") =
      canonicalizeJobUrl ("https://ex.com/jobs/1?track=b") ∧
    ∀ c1 c2, canonicalizeJobUrl ("https://ex.com/jobs/1?ref=a#top") = .ok c1 →
      canonicalizeJobUrl ("https://ex.com/jobs/1?track=b") = .ok c2 →
      deriveId c1 = deriveId c2 :=
  c1_canonicalize_amended.2.2 ("https://ex.com/jobs/1?ref=a#top")
    ("https://ex.com/jobs/1?track=b")
    { scheme := ("https"), netloc := ("ex.com"), path := ("/jobs/1"),
      query := ("ref=a"), fragment := ("top") }
    { scheme := ("https"), netloc := ("ex.com"), path := ("/jobs/1"),
      query := ("track=b"), fragment := ("") }
    (by decide) (by decide) (by decide) (by decide) (by decide) (by decide)
    (by decide)

/-! ## Listing store lemmas (claims C2, C6, C8) -/

theorem hasUrl_iff (t : JobsTable) (u : String) :
    hasUrl t u = true ↔ ∃ r ∈ t, r.url = u := by
  simp [hasUrl, List.any_eq_true]

theorem hasId_iff (t : JobsTable) (i : String) :
    hasId t i = true ↔ ∃ r ∈ t, r.id = i := by
  simp [hasId, List.any_eq_true]

theorem contains_tableUrls (t : JobsTable) (u : String) :
    (tableUrls t).contains u = hasUrl t u := by
  rw [Bool.eq_iff_iff, List.contains_eq_any_beq]
  simp only [tableUrls, List.any_map, List.any_eq_true, beq_iff_eq, hasUrl,
    Function.comp, List.mem_map]
  constructor
  · rintro ⟨x, ⟨r, hr, hrx⟩, hux⟩
    exact ⟨r, hr, hrx.trans hux.symm⟩
  · rintro ⟨r, hr, hru⟩
    exact ⟨u, ⟨r, hr, hru⟩, rfl⟩

theorem hasUrl_append (t1 t2 : JobsTable) (u : String) :
    hasUrl (t1 ++ t2) u = (hasUrl t1 u || hasUrl t2 u) := by
  simp [hasUrl, List.any_append]

theorem get_new_jobs_fst (d : JobDatabase) (urls : List String) :
    (get_new_jobs d urls).1 = urls.filter (fun u => !hasUrl d.db u) := by
  unfold get_new_jobs
  by_cases h : urls.isEmpty
  · rw [if_pos h]
    rw [List.isEmpty_iff.mp h]
    rfl
  · rw [if_neg h]
    apply List.filter_congr
    intro u hu
    have hE : ((d.db.filter (fun r => urls.contains r.url)).map
        (fun r => r.url)).contains u = hasUrl d.db u := by
      rw [Bool.eq_iff_iff, List.contains_eq_any_beq]
      simp only [List.any_eq_true, List.mem_map, List.mem_filter,
        beq_iff_eq, hasUrl]
      constructor
      · rintro ⟨x, ⟨r, ⟨hrdb, _⟩, hxr⟩, hux⟩
        exact ⟨r, hrdb, by rw [hxr, ← hux]⟩
      · rintro ⟨r, hrdb, hru⟩
        refine ⟨u, ⟨r, ⟨hrdb, ?_⟩, hru⟩, rfl⟩
        rw [hru]
        exact List.elem_eq_true_of_mem hu
    rw [hE]
    cases h2 : hasUrl d.db u <;> simp

/-- C6: `get_new_jobs` returns exactly the input URLs whose url is not in
the store, as an order-preserving sublist of the input, and the empty
input returns empty with zero store round-trips (a non-empty input costs
exactly one SELECT). -/
theorem c6_get_new_jobs :
    ∀ (d : JobDatabase) (urls : List String),
      (get_new_jobs d urls).1 = urls.filter (fun u => !hasUrl d.db u) ∧
      List.Sublist (get_new_jobs d urls).1 urls ∧
      (∀ u, u ∈ (get_new_jobs d urls).1 ↔
        u ∈ urls ∧ hasUrl d.db u = false) ∧
      (urls = [] → get_new_jobs d urls = ([], 0)) ∧
      (urls ≠ [] → (get_new_jobs d urls).2 = 1) := by
  intro d urls
  have hf := get_new_jobs_fst d urls
  refine ⟨hf, ?_, ?_, ?_, ?_⟩
  · rw [hf]
    exact List.filter_sublist urls
  · intro u
    rw [hf, List.mem_filter]
    simp
  · intro h
    rw [h]
    rfl
  · intro h
    unfold get_new_jobs
    rw [if_neg (by simpa using h)]

/-- C6 witness: a concrete one-element query against a store holding an
unrelated row costs one SELECT and returns the URL. -/
theorem c6_get_new_jobs_witness :
    ([("https://jobs.example/a")] ≠ ([] : List String)) ∧
    (get_new_jobs { db := [listingRow ("") jlB], remote := ("") }
      [("https://jobs.example/a")]).2 = 1 :=
  ⟨by decide,
    (c6_get_new_jobs { db := [listingRow ("") jlB], remote := ("") }
      [("https://jobs.example/a")]).2.2.2.2 (by decide)⟩

/-! ## Insertion fold lemmas (claims C2 and C8) -/

theorem keysAgree_mono {l1 l2 : List (String × String)} (hsub : l1 ⊆ l2)
    (h : KeysAgree l2) : KeysAgree l1 :=
  fun p hp q hq => h p (hsub hp) q (hsub hq)

theorem freshFirst_congr :
    ∀ (js : List JobListing) (s1 s2 : List String),
      (∀ u, s1.contains u = s2.contains u) →
      freshFirst s1 js = freshFirst s2 js := by
  intro js
  induction js with
  | nil => intro s1 s2 h; rfl
  | cons j rest ih =>
    intro s1 s2 h
    simp only [freshFirst]
    rw [h j.job_url]
    by_cases hc : s2.contains j.job_url = true
    · rw [if_pos hc, if_pos hc]
      exact ih s1 s2 h
    · rw [if_neg hc, if_neg hc]
      have hcons : ∀ u, (j.job_url :: s1).contains u
          = (j.job_url :: s2).contains u := by
        intro u
        rw [List.contains_cons, List.contains_cons, h u]
      rw [ih _ _ hcons]

theorem add_rows_fold (remote : String) (jobs : List JobListing) :
    ∀ (t : JobsTable) (n : Nat),
      KeysAgree (rowKeys t ++ listingKeys jobs) →
      ((jobs.map (listingRow remote)).foldl
        (fun (acc : JobsTable × Nat) r =>
          let step := insertOrIgnore acc.1 r
          (step.1, acc.2 + step.2)) (t, n))
      = (t ++ (freshFirst (tableUrls t) jobs).map (listingRow remote),
         n + (freshFirst (tableUrls t) jobs).length) := by
  induction jobs with
  | nil => intro t n h; simp [freshFirst]
  | cons j rest ih =>
    intro t n h
    have hsub1 : rowKeys t ++ listingKeys rest ⊆
        rowKeys t ++ listingKeys (j :: rest) := by
      intro p hp
      rw [List.mem_append] at hp ⊢
      rcases hp with hp | hp
      · exact Or.inl hp
      · exact Or.inr (by simp [listingKeys] at hp ⊢; exact Or.inr hp)
    simp only [List.map_cons, List.foldl_cons]
    by_cases hu : hasUrl t j.job_url = true
    · have hins : insertOrIgnore t (listingRow remote j) = (t, 0) := by
        unfold insertOrIgnore
        rw [if_pos (by simp [listingRow, hu])]
      simp only [hins, Nat.add_zero]
      have hseen : (tableUrls t).contains j.job_url = true := by
        rw [contains_tableUrls]
        exact hu
      rw [show freshFirst (tableUrls t) (j :: rest)
          = freshFirst (tableUrls t) rest by
        simp only [freshFirst]; rw [if_pos hseen]]
      exact ih t n (keysAgree_mono hsub1 h)
    · have hid : hasId t j.id = false := by
        rw [Bool.eq_false_iff]
        intro hcon
        obtain ⟨r, hr, hri⟩ := (hasId_iff t j.id).mp hcon
        have hpq := h (r.id, r.url)
          (by rw [List.mem_append]; exact Or.inl (by
            simp [rowKeys]; exact ⟨r, hr, rfl, rfl⟩))
          (j.id, j.job_url)
          (by rw [List.mem_append]; exact Or.inr (by
            simp [listingKeys]))
        have hurl : r.url = j.job_url := hpq.mp hri
        exact hu ((hasUrl_iff t j.job_url).mpr ⟨r, hr, hurl⟩)
      have hins : insertOrIgnore t (listingRow remote j)
          = (t ++ [listingRow remote j], 1) := by
        unfold insertOrIgnore
        rw [if_neg (by simp [listingRow, hu, hid])]
      simp only [hins]
      have hseen : (tableUrls t).contains j.job_url = false := by
        rw [contains_tableUrls, Bool.eq_false_iff]
        exact hu
      have hsub2 : rowKeys (t ++ [listingRow remote j]) ++ listingKeys rest
          ⊆ rowKeys t ++ listingKeys (j :: rest) := by
        intro p hp
        rw [List.mem_append] at hp ⊢
        rcases hp with hp | hp
        · unfold rowKeys at hp
          rw [List.map_append, List.mem_append] at hp
          rcases hp with hp | hp
          · exact Or.inl hp
          · simp only [List.map_cons, List.map_nil,
              List.mem_singleton] at hp
            right
            rw [hp]
            exact List.mem_cons_self _ _
        · right
          unfold listingKeys at hp ⊢
          rw [List.map_cons]
          exact List.mem_cons_of_mem _ hp
      have hrec := ih (t ++ [listingRow remote j]) (n + 1)
        (keysAgree_mono hsub2 h)
      rw [hrec]
      have hcong : freshFirst (tableUrls (t ++ [listingRow remote j])) rest
          = freshFirst (j.job_url :: tableUrls t) rest := by
        apply freshFirst_congr
        intro u
        rw [List.contains_cons]
        unfold tableUrls
        rw [List.map_append]
        simp only [List.map_cons, List.map_nil, listingRow]
        rw [List.contains_eq_any_beq, List.contains_eq_any_beq,
          List.any_append]
        simp [Bool.or_comm]
      rw [hcong]
      rw [show freshFirst (tableUrls t) (j :: rest)
          = j :: freshFirst (j.job_url :: tableUrls t) rest by
        simp only [freshFirst]
        rw [if_neg (by rw [hseen]; exact Bool.false_ne_true)]]
      simp only [List.map_cons, List.length_cons, Prod.mk.injEq]
      constructor
      · rw [List.append_assoc]
        rfl
      · omega

theorem add_jobs_spec (d : JobDatabase) (jobs : List JobListing)
    (h : KeysAgree (rowKeys d.db ++ listingKeys jobs)) :
    add_jobs d jobs =
      ({ db := d.db ++
          (freshFirst (tableUrls d.db) jobs).map (listingRow d.remote),
         remote := d.remote },
       (freshFirst (tableUrls d.db) jobs).length) := by
  simp only [add_jobs]
  rw [add_rows_fold d.remote jobs d.db 0 h]
  simp [Nat.zero_add]

theorem fold_all_present (remote : String) (jobs : List JobListing) :
    ∀ (t : JobsTable) (n : Nat),
      (∀ j ∈ jobs, hasUrl t j.job_url = true) →
      ((jobs.map (listingRow remote)).foldl
        (fun (acc : JobsTable × Nat) r =>
          let step := insertOrIgnore acc.1 r
          (step.1, acc.2 + step.2)) (t, n)) = (t, n) := by
  induction jobs with
  | nil => intro t n _; rfl
  | cons j rest ih =>
    intro t n h
    simp only [List.map_cons, List.foldl_cons]
    have hins : insertOrIgnore t (listingRow remote j) = (t, 0) := by
      unfold insertOrIgnore
      rw [if_pos (by simp [listingRow, h j (List.mem_cons_self _ _)])]
    simp only [hins, Nat.add_zero]
    exact ih t n (fun x hx => h x (List.mem_cons_of_mem _ hx))

theorem freshFirst_url_mem :
    ∀ (js : List JobListing) (seen : List String) (j : JobListing),
      j ∈ js →
      seen.contains j.job_url = true ∨
      j.job_url ∈ (freshFirst seen js).map (fun x => x.job_url) := by
  intro js
  induction js with
  | nil =>
    intro seen j h
    simp at h
  | cons k rest ih =>
    intro seen j h
    rw [List.mem_cons] at h
    simp only [freshFirst]
    by_cases hc : seen.contains k.job_url = true
    · rw [if_pos hc]
      rcases h with h | h
      · left
        rw [h]
        exact hc
      · exact ih seen j h
    · rw [if_neg hc]
      rcases h with h | h
      · right
        rw [h, List.map_cons, List.mem_cons]
        exact Or.inl rfl
      · rcases ih (k.job_url :: seen) j h with h2 | h2
        · rw [List.contains_cons] at h2
          rcases (Bool.or_eq_true _ _).mp h2 with h3 | h3
          · right
            rw [List.map_cons, List.mem_cons]
            exact Or.inl (by exact beq_iff_eq.mp h3)
          · left
            exact h3
        · right
          rw [List.map_cons, List.mem_cons]
          exact Or.inr h2

theorem add_jobs_urls_present (d : JobDatabase) (jobs : List JobListing)
    (h : KeysAgree (rowKeys d.db ++ listingKeys jobs)) :
    ∀ j ∈ jobs, hasUrl (add_jobs d jobs).1.db j.job_url = true := by
  intro j hj
  rw [add_jobs_spec d jobs h]
  simp only
  rw [hasUrl_append, Bool.or_eq_true]
  rcases freshFirst_url_mem jobs (tableUrls d.db) j hj with h2 | h2
  · left
    rw [← contains_tableUrls]
    exact h2
  · right
    rw [List.mem_map] at h2
    obtain ⟨x, hx, hxu⟩ := h2
    apply (hasUrl_iff _ _).mpr
    exact ⟨listingRow d.remote x, List.mem_map_of_mem _ hx,
      by simp [listingRow, hxu]⟩

theorem add_jobs_idem (d : JobDatabase) (jobs : List JobListing)
    (h : KeysAgree (rowKeys d.db ++ listingKeys jobs)) :
    add_jobs (add_jobs d jobs).1 jobs = ((add_jobs d jobs).1, 0) := by
  have hpres := add_jobs_urls_present d jobs h
  simp only [add_jobs] at hpres ⊢
  rw [fold_all_present d.remote jobs _ 0 hpres]

/-- C2 (under the key-consistency invariant `id = hash(job_url)` of the
data model): `add_jobs` appends, in order, exactly the first listing per
canonical URL among those whose URL is not already stored, leaving
existing rows untouched, and returns the number of rows inserted (an
internal duplicate URL survives once); calling it again with the same
batch changes nothing and returns 0. -/
theorem c2_add_jobs_spec (d : JobDatabase) (jobs : List JobListing)
    (h : KeysAgree (rowKeys d.db ++ listingKeys jobs)) :
    add_jobs d jobs =
      ({ db := d.db ++
          (freshFirst (tableUrls d.db) jobs).map (listingRow d.remote),
         remote := d.remote },
       (freshFirst (tableUrls d.db) jobs).length) ∧
    add_jobs (add_jobs d jobs).1 jobs = ((add_jobs d jobs).1, 0) :=
  ⟨add_jobs_spec d jobs h, add_jobs_idem d jobs h⟩

/-- C2 witness: a batch with an internal duplicate URL against an empty
store inserts the two distinct URLs once each, returns 2, and a repeat
call returns 0. -/
theorem c2_add_jobs_witness :
    KeysAgree (rowKeys ([] : JobsTable) ++ listingKeys [jlA, jlA2, jlB]) ∧
    add_jobs { db := [], remote := ("remote") } [jlA, jlA2, jlB] =
      ({ db := [listingRow ("remote") jlA, listingRow ("remote") jlB],
         remote := ("remote") }, 2) ∧
    add_jobs (add_jobs { db := [], remote := ("remote") }
        [jlA, jlA2, jlB]).1 [jlA, jlA2, jlB]
      = ((add_jobs { db := [], remote := ("remote") }
        [jlA, jlA2, jlB]).1, 0) := by
  have h : KeysAgree (rowKeys ([] : JobsTable) ++
      listingKeys [jlA, jlA2, jlB]) := by decide
  refine ⟨h, ?_, (c2_add_jobs_spec _ _ h).2⟩
  rw [(c2_add_jobs_spec { db := [], remote := ("remote") }
    [jlA, jlA2, jlB] h).1]
  decide

/-- C8 (under the key-consistency invariant): right after `add_jobs`,
`get_new_jobs` on the URLs of exactly the added listings returns the
empty sequence. -/
theorem c8_get_new_after_add (d : JobDatabase) (jobs : List JobListing)
    (h : KeysAgree (rowKeys d.db ++ listingKeys jobs)) :
    (get_new_jobs (add_jobs d jobs).1
      (jobs.map (fun j => j.job_url))).1 = [] := by
  rw [get_new_jobs_fst]
  rw [List.filter_eq_nil_iff]
  intro u hu
  rw [List.mem_map] at hu
  obtain ⟨j, hj, hju⟩ := hu
  have hp := add_jobs_urls_present d jobs h j hj
  rw [hju] at hp
  simp [hp]

/-- C8 witness: the round-trip on a concrete two-listing batch. -/
theorem c8_get_new_after_add_witness :
    KeysAgree (rowKeys ([] : JobsTable) ++ listingKeys [jlA, jlB]) ∧
    (get_new_jobs (add_jobs { db := [], remote := ("") } [jlA, jlB]).1
      ([jlA, jlB].map (fun j => j.job_url))).1 = [] :=
  ⟨by decide, c8_get_new_after_add { db := [], remote := ("") }
    [jlA, jlB] (by decide)⟩

/-! ## Score update lemmas (claim C7) -/

theorem scoreRow_id (p : String × Int) (r : JobRow) :
    (scoreRow p r).id = r.id := by
  unfold scoreRow
  split <;> rfl

theorem applyScore_eq (t : JobsTable) (p : String × Int) :
    applyScore t p.1 p.2
      = (t.map (scoreRow p), (t.filter (fun r => r.id == p.1)).length) := rfl

theorem filter_length_map_scoreRow (t : JobsTable) (p : String × Int)
    (x : String) :
    ((t.map (scoreRow p)).filter (fun r => r.id == x)).length
      = (t.filter (fun r => r.id == x)).length := by
  induction t with
  | nil => rfl
  | cons r rest ih =>
    rw [List.map_cons, List.filter_cons, List.filter_cons, scoreRow_id]
    by_cases hx : (r.id == x) = true
    · rw [if_pos hx, if_pos hx]
      simp only [List.length_cons, ih]
    · rw [if_neg hx, if_neg hx]
      exact ih

theorem update_fold_rows (scores : List (String × Int)) :
    ∀ (t : JobsTable) (n : Nat),
      (scores.foldl (fun (acc : JobsTable × Nat) p =>
        let step := applyScore acc.1 p.1 p.2
        (step.1, acc.2 + step.2)) (t, n))
      = (t.map (fun r => scores.foldl (fun row p => scoreRow p row) r),
         n + (scores.map
           (fun p => (t.filter (fun r => r.id == p.1)).length)).sum) := by
  induction scores with
  | nil => intro t n; simp
  | cons p rest ih =>
    intro t n
    simp only [List.foldl_cons, List.map_cons, List.sum_cons]
    rw [show (applyScore t p.1 p.2).1 = t.map (scoreRow p) by
      rw [applyScore_eq]]
    rw [show (applyScore t p.1 p.2).2
        = (t.filter (fun r => r.id == p.1)).length by rw [applyScore_eq]]
    rw [ih (t.map (scoreRow p))
      (n + (t.filter (fun r => r.id == p.1)).length)]
    rw [List.map_map]
    have hsum : rest.map (fun q =>
        ((t.map (scoreRow p)).filter (fun r => r.id == q.1)).length)
        = rest.map (fun q => (t.filter (fun r => r.id == q.1)).length) := by
      apply List.map_congr_left
      intro q _
      exact filter_length_map_scoreRow t p q.1
    rw [hsum]
    simp only [Prod.mk.injEq]
    constructor
    · rfl
    · omega

theorem fold_no_match (scores : List (String × Int)) :
    ∀ (r : JobRow), (∀ q ∈ scores, (r.id == q.1) = false) →
      scores.foldl (fun row p => scoreRow p row) r = r := by
  induction scores with
  | nil => intro r _; rfl
  | cons p rest ih =>
    intro r h
    rw [List.foldl_cons]
    rw [show scoreRow p r = r by
      simp [scoreRow, h p (List.mem_cons_self _ _)]]
    exact ih r (fun q hq => h q (List.mem_cons_of_mem _ hq))

theorem row_fold_lookup (scores : List (String × Int)) :
    ∀ (r : JobRow), (scores.map Prod.fst).Nodup →
      scores.foldl (fun row p => scoreRow p row) r = scoredRow scores r := by
  induction scores with
  | nil => intro r _; rfl
  | cons p rest ih =>
    obtain ⟨k, v⟩ := p
    intro r h
    rw [List.map_cons, List.nodup_cons] at h
    obtain ⟨hnm, hnd⟩ := h
    rw [List.foldl_cons]
    by_cases hm : (r.id == k) = true
    · have hid : r.id = k := beq_iff_eq.mp hm
      have hstep : scoreRow (k, v) r
          = { r with relevance_score := some v, status := ("scored") } := by
        simp [scoreRow, hm]
      rw [hstep]
      rw [fold_no_match rest _ ?hno]
      case hno =>
        intro q hq
        rw [beq_eq_false_iff_ne]
        intro hcon
        apply hnm
        rw [← hid, hcon]
        exact List.mem_map.mpr ⟨q, hq, rfl⟩
      unfold scoredRow
      simp [List.lookup, hm]
    · rw [show scoreRow (k, v) r = r by simp [scoreRow, hm]]
      rw [ih r hnd]
      unfold scoredRow
      simp [List.lookup, hm]

theorem count_id_nodup (x : String) :
    ∀ (t : JobsTable), (t.map JobRow.id).Nodup →
      (t.filter (fun r => r.id == x)).length
        = if hasId t x = true then 1 else 0 := by
  intro t
  induction t with
  | nil => intro _; simp [hasId]
  | cons r rest ih =>
    intro h
    rw [List.map_cons, List.nodup_cons] at h
    obtain ⟨hnm, hnd⟩ := h
    rw [List.filter_cons]
    by_cases hx : (r.id == x) = true
    · rw [if_pos hx]
      have hxid : r.id = x := beq_iff_eq.mp hx
      have hrest : rest.filter (fun rr => rr.id == x) = [] := by
        rw [List.filter_eq_nil_iff]
        intro rr hrr hcon
        apply hnm
        rw [hxid, ← beq_iff_eq.mp hcon]
        exact List.mem_map_of_mem _ hrr
      rw [hrest]
      have hh : hasId (r :: rest) x = true := by
        rw [hasId_iff]
        exact ⟨r, List.mem_cons_self _ _, hxid⟩
      rw [if_pos hh]
      rfl
    · rw [if_neg hx]
      rw [ih hnd]
      have hh : hasId (r :: rest) x = hasId rest x := by
        simp only [hasId, List.any_cons, hx, Bool.false_or]
      rw [hh]

theorem sum_indicator {α : Type} (q : α → Bool) :
    ∀ (l : List α),
      (l.map (fun a => if q a = true then 1 else 0)).sum
        = (l.filter q).length := by
  intro l
  induction l with
  | nil => rfl
  | cons a rest ih =>
    rw [List.map_cons, List.sum_cons, List.filter_cons]
    by_cases ha : q a = true
    · rw [if_pos ha, if_pos ha, List.length_cons, ih]
      omega
    · rw [if_neg ha, if_neg ha, ih]
      omega

/-- C7: with pairwise-distinct row ids (the primary key) and
pairwise-distinct ids in the batch, `update_scores` rewrites exactly the
rows whose id occurs in the batch, setting the given score and flipping
the status to `scored`; ids not present are silently ignored; and the
return value is the number of batch entries whose id is present, that is,
the number of rows actually modified. -/
theorem c7_update_scores (d : JobDatabase) (scores : List (String × Int))
    (h1 : (d.db.map JobRow.id).Nodup)
    (h2 : (scores.map Prod.fst).Nodup) :
    (update_scores d scores).1.db = d.db.map (scoredRow scores) ∧
    (update_scores d scores).2
      = (scores.filter (fun p => hasId d.db p.1)).length ∧
    (update_scores d scores).1.remote = d.remote := by
  have hfold := update_fold_rows scores d.db 0
  refine ⟨?_, ?_, rfl⟩
  · show (scores.foldl (fun (acc : JobsTable × Nat) p =>
        let step := applyScore acc.1 p.1 p.2
        (step.1, acc.2 + step.2)) (d.db, 0)).1 = _
    rw [hfold]
    exact List.map_congr_left (fun r _ => row_fold_lookup scores r h2)
  · show (scores.foldl (fun (acc : JobsTable × Nat) p =>
        let step := applyScore acc.1 p.1 p.2
        (step.1, acc.2 + step.2)) (d.db, 0)).2 = _
    rw [hfold]
    simp only [Nat.zero_add]
    rw [show scores.map (fun p => (d.db.filter (fun r => r.id == p.1)).length)
        = scores.map (fun p => if hasId d.db p.1 = true then 1 else 0) from
      List.map_congr_left (fun p _ => count_id_nodup p.1 d.db h1)]
    exact sum_indicator _ scores

/-- C7 witness: scenario C of the spec, with the store holding only the
row `abc123`; the missing id is ignored, the call returns 1, and the row
ends scored with relevance score 87. -/
theorem c7_update_scores_witness :
    ((([{ id := ("abc123"), url := ("https://jobs.example/a"),
          title := none, company := none, date_posted := none,
          location := none, remote := (""), status := ("discovered"),
          relevance_score := none }] : JobsTable).map JobRow.id).Nodup) ∧
    (update_scores
      { db := [{ id := ("abc123"), url := ("https://jobs.example/a"),
                 title := none, company := none, date_posted := none,
                 location := none, remote := (""),
                 status := ("discovered"), relevance_score := none }],
        remote := ("") }
      [(("abc123"), 87), (("doesnotexist"), 50)]).1.db
      = [{ id := ("abc123"), url := ("https://jobs.example/a"),
           title := none, company := none, date_posted := none,
           location := none, remote := (""), status := ("scored"),
           relevance_score := some 87 }] ∧
    (update_scores
      { db := [{ id := ("abc123"), url := ("https://jobs.example/a"),
                 title := none, company := none, date_posted := none,
                 location := none, remote := (""),
                 status := ("discovered"), relevance_score := none }],
        remote := ("") }
      [(("abc123"), 87), (("doesnotexist"), 50)]).2 = 1 := by
  have h := c7_update_scores
    { db := [{ id := ("abc123"), url := ("https://jobs.example/a"),
               title := none, company := none, date_posted := none,
               location := none, remote := (""),
               status := ("discovered"), relevance_score := none }],
      remote := ("") }
    [(("abc123"), 87), (("doesnotexist"), 50)] (by decide) (by decide)
  refine ⟨by decide, ?_, ?_⟩
  · rw [h.1]
    decide
  · rw [h.2.1]
    decide

/-! ## Scraper loop lemmas (claims C3 and C4) -/

theorem cardLoop_truncate (limit : Nat) :
    ∀ (good rest : List CardEvent) (acc : List JobListing),
      (∀ e ∈ good, cleanCard e = true) →
      cardLoop limit (good ++ CardEvent.raisesPw :: rest) acc
        = cardLoop limit good acc := by
  intro good
  induction good with
  | nil =>
    intro rest acc _
    rw [List.nil_append]
    show (if limit ≤ acc.length then ScrapeOutcome.returned acc
      else ScrapeOutcome.returned acc) = ScrapeOutcome.returned acc
    rw [ite_self]
  | cons e g ih =>
    intro rest acc h
    have he := h e (List.mem_cons_self _ _)
    rw [List.cons_append]
    by_cases hl : limit ≤ acc.length
    · cases e <;> simp only [cardLoop, if_pos hl]
    · cases e with
      | raisesPw => exact absurd he (by simp [cleanCard])
      | ok c =>
        simp only [cleanCard] at he
        cases hcu : cardJobUrl c with
        | none =>
          rw [hcu] at he
          simp at he
        | some u =>
          rw [hcu] at he
          replace he : (match canonicalizeJobUrl u with
            | Except.error _ => false
            | Except.ok _ => true) = true := he
          cases hca : canonicalizeJobUrl u with
          | error e2 =>
            rw [hca] at he
            simp at he
          | ok canon =>
            simp only [cardLoop, if_neg hl, hcu, hca]
            exact ih rest (acc ++ [cardListing c canon])
              (fun x hx => h x (List.mem_cons_of_mem _ hx))

theorem cardLoop_clean_returns (limit : Nat) :
    ∀ (events : List CardEvent) (acc : List JobListing),
      (∀ e ∈ events, cleanCard e = true) →
      ∃ ls, cardLoop limit events acc = .returned ls := by
  intro events
  induction events with
  | nil => intro acc _; exact ⟨acc, rfl⟩
  | cons e g ih =>
    intro acc h
    have he := h e (List.mem_cons_self _ _)
    by_cases hl : limit ≤ acc.length
    · exact ⟨acc, by cases e <;> simp only [cardLoop, if_pos hl]⟩
    · cases e with
      | raisesPw => exact absurd he (by simp [cleanCard])
      | ok c =>
        simp only [cleanCard] at he
        cases hcu : cardJobUrl c with
        | none =>
          rw [hcu] at he
          simp at he
        | some u =>
          rw [hcu] at he
          replace he : (match canonicalizeJobUrl u with
            | Except.error _ => false
            | Except.ok _ => true) = true := he
          cases hca : canonicalizeJobUrl u with
          | error e2 =>
            rw [hca] at he
            simp at he
          | ok canon =>
            obtain ⟨ls, hls⟩ := ih (acc ++ [cardListing c canon])
              (fun x hx => h x (List.mem_cons_of_mem _ hx))
            exact ⟨ls, by simp only [cardLoop, if_neg hl, hcu, hca]; exact hls⟩

/-- C3 (evaluation at the failing input): a results page whose second
card has no link element makes `search_jobs` raise `AttributeError`
(line 177 calls `encode` on `None`) instead of skipping that card, and
even the listing already parsed from the first card is lost. -/
theorem c3_missing_url_raises :
    search_jobs
      { navOk := true, waitOk := true,
        cards := [CardEvent.ok
          { titleEl := some ("ML Engineer"), companyEl := some ("Acme"),
            locationEl := some ("Berlin"),
            linkHref := some (some ("https://jobs.example/a?refId=x")),
            dateEl := none, descriptionEl := none },
          CardEvent.ok
          { titleEl := some ("Data Engineer"), companyEl := none,
            locationEl := none, linkHref := none,
            dateEl := none, descriptionEl := none }] } 100
      = ScrapeOutcome.raised PyExn.attributeError := by
  decide

/-- C4 (amended): a navigation failure or a failure while waiting for
the results list returns the empty sequence without raising; but a
transport error raised while iterating the cards returns the listings
parsed so far — the call behaves exactly as if the page had ended before
the failing card — so a non-empty partial result is returned whenever
any card was parsed before the error. -/
theorem c4_failure_policy_amended :
    (∀ (pm : PageModel) (limit : Nat), pm.navOk = false →
      search_jobs pm limit = .returned []) ∧
    (∀ (pm : PageModel) (limit : Nat), pm.waitOk = false →
      search_jobs pm limit = .returned []) ∧
    (∀ (good rest : List CardEvent) (limit : Nat),
      (∀ e ∈ good, cleanCard e = true) →
      search_jobs
          { navOk := true, waitOk := true,
            cards := (good ++ CardEvent.raisesPw :: rest) } limit
        = search_jobs { navOk := true, waitOk := true, cards := good } limit
      ∧ ∃ ls, search_jobs
          { navOk := true, waitOk := true,
            cards := (good ++ CardEvent.raisesPw :: rest) } limit
          = .returned ls) := by
  refine ⟨?_, ?_, ?_⟩
  · intro pm limit h
    simp [search_jobs, h]
  · intro pm limit h
    by_cases hn : pm.navOk = true
    · simp [search_jobs, h, hn]
    · simp [search_jobs, Bool.eq_false_iff.mpr hn]
  · intro good rest limit h
    constructor
    · show cardLoop limit (good ++ CardEvent.raisesPw :: rest) []
        = cardLoop limit good []
      exact cardLoop_truncate limit good rest [] h
    · obtain ⟨ls, hls⟩ := cardLoop_clean_returns limit good [] h
      refine ⟨ls, ?_⟩
      show cardLoop limit (good ++ CardEvent.raisesPw :: rest) [] = _
      rw [cardLoop_truncate limit good rest [] h]
      exact hls

/-- C4 counterexample: with one cleanly parsed card followed by a
transport error, the call returns the one-listing partial result, not
the empty sequence the claim requires. -/
theorem c4_counterexample :
    search_jobs
      { navOk := true, waitOk := true,
        cards := [CardEvent.ok
          { titleEl := some ("ML Engineer"), companyEl := some ("Acme"),
            locationEl := some ("Berlin"),
            linkHref := some (some ("https://jobs.example/a?refId=x")),
            dateEl := none, descriptionEl := none },
          CardEvent.raisesPw] } 100
      = ScrapeOutcome.returned
          [cardListing
            { titleEl := some ("ML Engineer"), companyEl := some ("Acme"),
              locationEl := some ("Berlin"),
              linkHref := some (some ("https://jobs.example/a?refId=x")),
              dateEl := none, descriptionEl := none }
            ("https://jobs.example/a")] ∧
    [cardListing
      { titleEl := some ("ML Engineer"), companyEl := some ("Acme"),
        locationEl := some ("Berlin"),
        linkHref := some (some ("https://jobs.example/a?refId=x")),
        dateEl := none, descriptionEl := none }
      ("https://jobs.example/a")] ≠ ([] : List JobListing) := by
  exact ⟨by decide, by decide⟩

/-- C4 witness: the amended failure policy applied to a concrete page
with one clean card before the transport error. -/
theorem c4_failure_policy_witness :
    (∀ e ∈ [CardEvent.ok
        { titleEl := some ("ML Engineer"), companyEl := some ("Acme"),
          locationEl := some ("Berlin"),
          linkHref := some (some ("https://jobs.example/a?refId=x")),
          dateEl := none, descriptionEl := none }], cleanCard e = true) ∧
    (search_jobs
        { navOk := true, waitOk := true,
          cards := ([CardEvent.ok
            { titleEl := some ("ML Engineer"), companyEl := some ("Acme"),
              locationEl := some ("Berlin"),
              linkHref := some (some ("https://jobs.example/a?refId=x")),
              dateEl := none, descriptionEl := none }]
            ++ CardEvent.raisesPw :: []) } 100
      = search_jobs
        { navOk := true, waitOk := true,
          cards := [CardEvent.ok
            { titleEl := some ("ML Engineer"), companyEl := some ("Acme"),
              locationEl := some ("Berlin"),
              linkHref := some (some ("https://jobs.example/a?refId=x")),
              dateEl := none, descriptionEl := none }] } 100
      ∧ ∃ ls, search_jobs
        { navOk := true, waitOk := true,
          cards := ([CardEvent.ok
            { titleEl := some ("ML Engineer"), companyEl := some ("Acme"),
              locationEl := some ("Berlin"),
              linkHref := some (some ("https://jobs.example/a?refId=x")),
              dateEl := none, descriptionEl := none }]
            ++ CardEvent.raisesPw :: []) } 100 = .returned ls) :=
  ⟨by decide, c4_failure_policy_amended.2.2 _ [] 100 (by decide)⟩

/-! ## Discovery orchestrator lemmas (claims C5 and C10) -/

theorem contains_append {α : Type} [BEq α] (l1 l2 : List α) (a : α) :
    (l1 ++ l2).contains a = (l1.contains a || l2.contains a) := by
  rw [List.contains_eq_any_beq, List.contains_eq_any_beq,
    List.contains_eq_any_beq, List.any_append]

theorem dedup_fold_inv (jobs : List JobListing) :
    ∀ (seen : List String) (found : List JobListing),
      ((found.map (fun j => j.job_url)).Nodup ∧
        ∀ u ∈ found.map (fun j => j.job_url), seen.contains u = true) →
      (((jobs.foldl dedupStep (seen, found)).2.map
          (fun j => j.job_url)).Nodup ∧
        ∀ u ∈ (jobs.foldl dedupStep (seen, found)).2.map
          (fun j => j.job_url),
          (jobs.foldl dedupStep (seen, found)).1.contains u = true) := by
  induction jobs with
  | nil => intro seen found h; exact h
  | cons j rest ih =>
    intro seen found h
    rw [List.foldl_cons]
    show (((rest.foldl dedupStep (dedupStep (seen, found) j)).2.map
        (fun j => j.job_url)).Nodup ∧ _)
    by_cases hc : seen.contains j.job_url = true
    · rw [show dedupStep (seen, found) j = (seen, found) by
        unfold dedupStep; rw [if_pos hc]]
      exact ih seen found h
    · rw [show dedupStep (seen, found) j
          = (seen ++ [j.job_url], found ++ [j]) by
        unfold dedupStep
        rw [if_neg hc]]
      apply ih
      constructor
      · rw [List.map_append]
        apply List.Nodup.append h.1 (List.nodup_singleton _)
        intro a ha ha2
        simp only [List.map_cons, List.map_nil, List.mem_singleton] at ha2
        rw [ha2] at ha
        exact hc (h.2 _ ha)
      · intro u hu
        rw [List.map_append, List.mem_append] at hu
        rw [contains_append, Bool.or_eq_true]
        rcases hu with hu | hu
        · exact Or.inl (h.2 _ hu)
        · simp only [List.map_cons, List.map_nil,
            List.mem_singleton] at hu
          right
          rw [hu]
          simp

theorem dedup_fold_sub (jobs : List JobListing) :
    ∀ (seen : List String) (found : List JobListing),
      ∃ g, (jobs.foldl dedupStep (seen, found)).2 = found ++ g ∧
        List.Sublist g jobs := by
  induction jobs with
  | nil =>
    intro seen found
    exact ⟨[], (List.append_nil _).symm, List.nil_sublist _⟩
  | cons j rest ih =>
    intro seen found
    rw [List.foldl_cons]
    by_cases hc : seen.contains j.job_url = true
    · rw [show dedupStep (seen, found) j = (seen, found) by
        unfold dedupStep; rw [if_pos hc]]
      obtain ⟨g, hg, hs⟩ := ih seen found
      exact ⟨g, hg, hs.cons j⟩
    · rw [show dedupStep (seen, found) j
          = (seen ++ [j.job_url], found ++ [j]) by
        unfold dedupStep
        rw [if_neg hc]]
      obtain ⟨g, hg, hs⟩ := ih (seen ++ [j.job_url]) (found ++ [j])
      refine ⟨j :: g, ?_, hs.cons₂ j⟩
      rw [hg, List.append_assoc]
      rfl

theorem processQuery_inv (st : DiscoveryState) (jobs : List JobListing)
    (h : DiscoveryInv st) : DiscoveryInv (processQuery st jobs) := by
  unfold processQuery
  by_cases he : jobs.isEmpty
  · rw [if_pos he]
    exact h
  · rw [if_neg he]
    exact dedup_fold_inv _ st.seen st.found h

theorem processQuery_found (st : DiscoveryState) (jobs : List JobListing) :
    ∃ g, (processQuery st jobs).found = st.found ++ g ∧
      List.Sublist g jobs := by
  unfold processQuery
  by_cases he : jobs.isEmpty
  · rw [if_pos he]
    exact ⟨[], (List.append_nil _).symm, List.nil_sublist _⟩
  · rw [if_neg he]
    obtain ⟨g, hg, hs⟩ := dedup_fold_sub (jobs.filter (fun j =>
      ((get_new_jobs st.db ((jobs.filter
        (fun j => j.job_url ≠ (""))).map (fun j => j.job_url))).1).contains
        j.job_url)) st.seen st.found
    exact ⟨g, hg, List.Sublist.trans hs (List.filter_sublist _)⟩

theorem discovery_fold_inv :
    ∀ (qrs : List (List JobListing)) (st : DiscoveryState),
      DiscoveryInv st → DiscoveryInv (qrs.foldl processQuery st) := by
  intro qrs
  induction qrs with
  | nil => intro st h; exact h
  | cons q rest ih => intro st h; exact ih _ (processQuery_inv st q h)

theorem discovery_fold_sub :
    ∀ (qrs : List (List JobListing)) (st : DiscoveryState),
      ∃ g, (qrs.foldl processQuery st).found = st.found ++ g ∧
        List.Sublist g qrs.flatten := by
  intro qrs
  induction qrs with
  | nil =>
    intro st
    exact ⟨[], (List.append_nil _).symm, List.nil_sublist _⟩
  | cons q rest ih =>
    intro st
    obtain ⟨g1, hg1, hs1⟩ := processQuery_found st q
    obtain ⟨g2, hg2, hs2⟩ := ih (processQuery st q)
    refine ⟨g1 ++ g2, ?_, ?_⟩
    · rw [List.foldl_cons, hg2, hg1, List.append_assoc]
    · rw [List.flatten_cons]
      exact List.Sublist.append hs1 hs2

theorem insert_fold_extra (rows : List JobRow) :
    ∀ (t : JobsTable) (n : Nat),
      ∃ extra, (rows.foldl (fun (acc : JobsTable × Nat) r =>
        let step := insertOrIgnore acc.1 r
        (step.1, acc.2 + step.2)) (t, n)).1 = t ++ extra ∧
        ∀ r ∈ extra, r ∈ rows := by
  induction rows with
  | nil => intro t n; exact ⟨[], (List.append_nil _).symm, by simp⟩
  | cons r rest ih =>
    intro t n
    rw [List.foldl_cons]
    by_cases hc : (hasId t r.id || hasUrl t r.url) = true
    · have hstep : insertOrIgnore t r = (t, 0) := by
        unfold insertOrIgnore
        rw [if_pos hc]
      simp only [hstep]
      obtain ⟨extra, he, hm⟩ := ih t (n + 0)
      exact ⟨extra, he, fun x hx => List.mem_cons_of_mem _ (hm x hx)⟩
    · have hstep : insertOrIgnore t r = (t ++ [r], 1) := by
        unfold insertOrIgnore
        rw [if_neg hc]
      simp only [hstep]
      obtain ⟨extra, he, hm⟩ := ih (t ++ [r]) (n + 1)
      refine ⟨r :: extra, ?_, ?_⟩
      · rw [he, List.append_assoc]
        rfl
      · intro x hx
        rw [List.mem_cons] at hx
        rcases hx with hx | hx
        · rw [hx]
          exact List.mem_cons_self _ _
        · exact List.mem_cons_of_mem _ (hm x hx)

theorem add_jobs_extra (d : JobDatabase) (jobs : List JobListing) :
    ∃ extra, (add_jobs d jobs).1.db = d.db ++ extra ∧
      ∀ r ∈ extra, r.remote = d.remote := by
  obtain ⟨extra, he, hm⟩ :=
    insert_fold_extra (jobs.map (listingRow d.remote)) d.db 0
  refine ⟨extra, he, ?_⟩
  intro r hr
  obtain ⟨j, _, hj⟩ := List.mem_map.mp (hm r hr)
  rw [← hj]
  rfl

theorem db_after_extra (d : JobDatabase) (filtered : List JobListing) :
    ∃ extra, (if filtered.isEmpty then d else (add_jobs d filtered).1).db
        = d.db ++ extra ∧
      (∀ r ∈ extra, r.remote = d.remote) ∧
      (if filtered.isEmpty then d else (add_jobs d filtered).1).remote
        = d.remote := by
  by_cases hf : filtered.isEmpty
  · simp only [hf, if_true]
    exact ⟨[], (List.append_nil _).symm, by simp, trivial⟩
  · simp only [Bool.eq_false_iff.mpr hf, if_false]
    obtain ⟨extra, he, hm⟩ := add_jobs_extra d filtered
    exact ⟨extra, he, hm, rfl⟩

theorem processQuery_db (st : DiscoveryState) (jobs : List JobListing) :
    ∃ extra, (processQuery st jobs).db.db = st.db.db ++ extra ∧
      (∀ r ∈ extra, r.remote = st.db.remote) ∧
      (processQuery st jobs).db.remote = st.db.remote := by
  unfold processQuery
  by_cases he : jobs.isEmpty
  · rw [if_pos he]
    exact ⟨[], (List.append_nil _).symm, by simp, rfl⟩
  · rw [if_neg he]
    exact db_after_extra st.db _

theorem discovery_fold_db :
    ∀ (qrs : List (List JobListing)) (st : DiscoveryState),
      ∃ extra, (qrs.foldl processQuery st).db.db = st.db.db ++ extra ∧
        (∀ r ∈ extra, r.remote = st.db.remote) ∧
        (qrs.foldl processQuery st).db.remote = st.db.remote := by
  intro qrs
  induction qrs with
  | nil =>
    intro st
    exact ⟨[], (List.append_nil _).symm, by simp, rfl⟩
  | cons q rest ih =>
    intro st
    obtain ⟨e1, h1, hm1, hr1⟩ := processQuery_db st q
    obtain ⟨e2, h2, hm2, hr2⟩ := ih (processQuery st q)
    refine ⟨e1 ++ e2, ?_, ?_, ?_⟩
    · rw [List.foldl_cons, h2, h1, List.append_assoc]
    · intro r hr
      rw [List.mem_append] at hr
      rcases hr with hr | hr
      · exact hm1 r hr
      · exact (hm2 r hr).trans hr1
    · rw [List.foldl_cons, hr2, hr1]

/-- C10: the remote tag stamped onto every row inserted during a
discovery run is the single supplied remote filter when exactly one is
given and the empty string otherwise, independently of the scraped
listings. -/
theorem c10_remote_tag (t0 : JobsTable) (fs : List String)
    (qrs : List (List JobListing)) :
    ∃ extra, (job_discovery_node t0 fs qrs).db.db = t0 ++ extra ∧
      ∀ r ∈ extra, r.remote
        = (if fs.length = 1 then fs.headD ("") else ("")) := by
  obtain ⟨extra, he, hm, _⟩ := discovery_fold_db qrs
    { db := { db := t0, remote := remoteValue fs },
      seen := [], found := [], batches := [] }
  exact ⟨extra, he, fun r hr => (hm r hr).trans rfl⟩

/-- C10 witness: a concrete run with exactly one remote filter. -/
theorem c10_remote_tag_witness :
    ∃ extra, (job_discovery_node [] [("remote")] [[jlA], [jlB]]).db.db
        = [] ++ extra ∧
      ∀ r ∈ extra, r.remote
        = (if ([("remote")] : List String).length = 1
            then ([("remote")] : List String).headD ("") else ("")) :=
  c10_remote_tag [] [("remote")] [[jlA], [jlB]]

theorem processQuery_single_new (st : DiscoveryState) (l : JobListing)
    (h2 : l.job_url ≠ ("")) (h3 : hasUrl st.db.db l.job_url = false)
    (h4 : hasId st.db.db l.id = false) :
    processQuery st [l] =
      { db := { db := st.db.db ++ [listingRow st.db.remote l],
                remote := st.db.remote },
        seen := (dedupStep (st.seen, st.found) l).1,
        found := (dedupStep (st.seen, st.found) l).2,
        batches := st.batches ++ [[l]] } := by
  simp only [processQuery]
  rw [if_neg (by simp)]
  rw [show ([l].filter (fun j => j.job_url ≠ (""))).map
      (fun j => j.job_url) = [l.job_url] by simp [h2]]
  rw [show (get_new_jobs st.db [l.job_url]).1 = [l.job_url] by
    rw [get_new_jobs_fst]; simp [h3]]
  rw [show [l].filter (fun j =>
      ([l.job_url] : List String).contains j.job_url) = [l] by simp]
  rw [if_neg (by simp), if_neg (by simp)]
  rw [show (add_jobs st.db [l]).1
      = { db := st.db.db ++ [listingRow st.db.remote l],
          remote := st.db.remote } by
    simp only [add_jobs, List.map_cons, List.map_nil, List.foldl_cons,
      List.foldl_nil]
    rw [show insertOrIgnore st.db.db (listingRow st.db.remote l)
        = (st.db.db ++ [listingRow st.db.remote l], 1) by
      unfold insertOrIgnore
      rw [if_neg (by simp [listingRow, h3, h4])]]]
  rw [List.foldl_cons, List.foldl_nil]

theorem processQuery_single_dup (st : DiscoveryState) (l : JobListing)
    (h2 : l.job_url ≠ ("")) (h3 : hasUrl st.db.db l.job_url = true) :
    processQuery st [l] = st := by
  simp only [processQuery]
  rw [if_neg (by simp)]
  rw [show ([l].filter (fun j => j.job_url ≠ (""))).map
      (fun j => j.job_url) = [l.job_url] by simp [h2]]
  rw [show (get_new_jobs st.db [l.job_url]).1 = [] by
    rw [get_new_jobs_fst]; simp [h3]]
  rw [show [l].filter (fun j =>
      ([] : List String).contains j.job_url) = [] by simp]
  rfl

theorem c5_scenario_pair (t0 : JobsTable) (fs : List String)
    (l1 l2 : JobListing) (h1 : l1.job_url = l2.job_url)
    (h2 : l1.job_url ≠ ("")) (h3 : hasUrl t0 l1.job_url = false)
    (h4 : hasId t0 l1.id = false) :
    (job_discovery_node t0 fs [[l1], [l2]]).found = [l1] ∧
    (job_discovery_node t0 fs [[l1], [l2]]).batches = [[l1]] := by
  unfold job_discovery_node
  rw [List.foldl_cons, List.foldl_cons, List.foldl_nil]
  rw [processQuery_single_new
    { db := { db := t0, remote := remoteValue fs },
      seen := [], found := [], batches := [] } l1 h2 h3 h4]
  rw [show dedupStep
      (({ db := { db := t0, remote := remoteValue fs },
          seen := [], found := [], batches := [] } :
        DiscoveryState).seen,
       ({ db := { db := t0, remote := remoteValue fs },
          seen := [], found := [], batches := [] } :
        DiscoveryState).found) l1 = ([l1.job_url], [l1]) by
    simp [dedupStep]]
  rw [processQuery_single_dup _ l2 (h1 ▸ h2) ?_]
  · exact ⟨rfl, rfl⟩
  · rw [hasUrl_append, Bool.or_eq_true]
    right
    simp [hasUrl, listingRow, h1]

/-- C5: the merged discovery output contains at most one listing per
canonical URL (its URL list repeats nothing), it is a stable-order
subsequence of the scraped stream, and when two queries each surface a
listing with the same fresh URL the run keeps exactly the first listing
and passes it to `add_jobs` in exactly one batch. -/
theorem c5_run_dedup :
    (∀ (t0 : JobsTable) (fs : List String)
      (qrs : List (List JobListing)),
      ((job_discovery_node t0 fs qrs).found.map
        (fun j => j.job_url)).Nodup ∧
      List.Sublist (job_discovery_node t0 fs qrs).found qrs.flatten) ∧
    (∀ (t0 : JobsTable) (fs : List String) (l1 l2 : JobListing),
      l1.job_url = l2.job_url → l1.job_url ≠ ("") →
      hasUrl t0 l1.job_url = false → hasId t0 l1.id = false →
      (job_discovery_node t0 fs [[l1], [l2]]).found = [l1] ∧
      (job_discovery_node t0 fs [[l1], [l2]]).batches = [[l1]]) := by
  constructor
  · intro t0 fs qrs
    constructor
    · exact (discovery_fold_inv qrs
        { db := { db := t0, remote := remoteValue fs },
          seen := [], found := [], batches := [] }
        ⟨List.nodup_nil, by simp⟩).1
    · obtain ⟨g, hg, hs⟩ := discovery_fold_sub qrs
        { db := { db := t0, remote := remoteValue fs },
          seen := [], found := [], batches := [] }
      show List.Sublist (List.foldl processQuery _ qrs).found _
      rw [hg, List.nil_append]
      exact hs
  · exact c5_scenario_pair

/-- C5 witness: two queries returning the same-URL listings `jlA` and
`jlA2` against an empty store merge to the first listing only, with a
single `add_jobs` batch. -/
theorem c5_run_dedup_witness :
    jlA.job_url = jlA2.job_url ∧
    ((job_discovery_node [] [] [[jlA], [jlA2]]).found = [jlA] ∧
     (job_discovery_node [] [] [[jlA], [jlA2]]).batches = [[jlA]]) :=
  ⟨by decide, c5_run_dedup.2 [] [] jlA jlA2 (by decide) (by decide)
    (by decide) (by decide)⟩

end JobSearch
